import Mathlib

/-!
Verification of the scrip directory flattener/restorer.

This file gives a shallow embedding of the `scrip` Python package
(src/scrip/constants.py, parser.py, file_utils.py, flattener.py,
restorer.py) and settles the frozen claims about it.

Modelling conventions:
* a Python `str` is modelled as `List Char` (`Str`);
* a Python `bytes` is modelled as `List Nat`, each element intended `< 256`;
* the filesystem is pure: a directory tree is an inductive value, and the
  restorer's filesystem effects are reified as an explicit list of write
  operations in the order the code performs them;
* the platform is POSIX (the separator is `/`, `os.linesep` is `"\n"`, so
  text-mode writes are the identity on the text; text-mode reads apply
  universal-newline translation, which is modelled explicitly).
-/

namespace Scrip

/-! ## Python string primitives -/

/-- A Python `str`, modelled as its list of characters. -/
abbrev Str := List Char

/-- Coerce a Lean string literal into the model. -/
def str (s : String) : Str := s.data

/-- Python slicing `s[:-n]` (drop the last `n` characters, clamped at 0). -/
def dropRightN (n : Nat) (l : Str) : Str := l.take (l.length - n)

/-- Python `s.rstrip('\n')`: remove every trailing newline character. -/
def rstripNewlines (s : Str) : Str := (s.reverse.dropWhile (fun c => c == '\n')).reverse

/-- True when the string contains no newline character. -/
def noNL (s : Str) : Bool := s.all (fun c => c != '\n')

/-- True when the string contains no carriage return. -/
def noCR (s : Str) : Bool := s.all (fun c => c != '\r')

/-- True when the string ends with a newline character. -/
def endsNL (s : Str) : Bool := s.getLast? == some '\n'

/-! ## constants.py -/

def BEGIN_FILE_PRE : Str := str "--- BEGIN FILE: "
def BEGIN_FILE_SUFFIX : Str := str " ---"
def END_FILE_PRE : Str := str "--- END FILE: "
def END_FILE_SUFFIX : Str := str " ---"
def EMPTY_DIR_PRE : Str := str "--- EMPTY DIR: "
def EMPTY_DIR_SUFFIX : Str := str " ---"
def BINARY_MARKER : Str := str " (BINARY - BASE64 ENCODED)"

/-! ## parser.py -/

/-- The slice `line[len(BEGIN_FILE_PRE):-len(BEGIN_FILE_SUFFIX)]`
from `parse_begin_file_line`. -/
def path_part_begin (line : Str) : Str :=
  dropRightN BEGIN_FILE_SUFFIX.length (line.drop BEGIN_FILE_PRE.length)

/-- The slice `line[len(END_FILE_PRE):-len(END_FILE_SUFFIX)]`
from `parse_end_file_line`. -/
def path_part_end (line : Str) : Str :=
  dropRightN END_FILE_SUFFIX.length (line.drop END_FILE_PRE.length)

/-- The slice `line[len(EMPTY_DIR_PRE):-len(EMPTY_DIR_SUFFIX)]`
from `parse_empty_dir_line`. -/
def path_part_empty_dir (line : Str) : Str :=
  dropRightN EMPTY_DIR_SUFFIX.length (line.drop EMPTY_DIR_PRE.length)

/-- parser.py `parse_begin_file_line`: returns `(path_str, is_binary)` with
`path_str = none` when the line is not a BEGIN FILE marker. -/
def parse_begin_file_line (line : Str) : Option Str × Bool :=
  if BEGIN_FILE_PRE.isPrefixOf line && BEGIN_FILE_SUFFIX.isSuffixOf line then
    if BINARY_MARKER.isSuffixOf (path_part_begin line) then
      (some (dropRightN BINARY_MARKER.length (path_part_begin line)), true)
    else
      (some (path_part_begin line), false)
  else (none, false)

/-- parser.py `parse_empty_dir_line`. -/
def parse_empty_dir_line (line : Str) : Option Str :=
  if EMPTY_DIR_PRE.isPrefixOf line && EMPTY_DIR_SUFFIX.isSuffixOf line then
    some (path_part_empty_dir line)
  else none

/-- parser.py `parse_end_file_line`. -/
def parse_end_file_line (line : Str) : Option Str × Bool :=
  if END_FILE_PRE.isPrefixOf line && END_FILE_SUFFIX.isSuffixOf line then
    if BINARY_MARKER.isSuffixOf (path_part_end line) then
      (some (dropRightN BINARY_MARKER.length (path_part_end line)), true)
    else
      (some (path_part_end line), false)
  else (none, false)

theorem parse_begin_isSome (line : Str) :
    (parse_begin_file_line line).1.isSome
      = (BEGIN_FILE_PRE.isPrefixOf line && BEGIN_FILE_SUFFIX.isSuffixOf line) := by
  unfold parse_begin_file_line
  by_cases h : (BEGIN_FILE_PRE.isPrefixOf line && BEGIN_FILE_SUFFIX.isSuffixOf line) = true
  · rw [if_pos h, h]
    split <;> simp
  · rw [if_neg h]
    simp only [Bool.not_eq_true] at h
    simp [h]

theorem parse_end_isSome (line : Str) :
    (parse_end_file_line line).1.isSome
      = (END_FILE_PRE.isPrefixOf line && END_FILE_SUFFIX.isSuffixOf line) := by
  unfold parse_end_file_line
  by_cases h : (END_FILE_PRE.isPrefixOf line && END_FILE_SUFFIX.isSuffixOf line) = true
  · rw [if_pos h, h]
    split <;> simp
  · rw [if_neg h]
    simp only [Bool.not_eq_true] at h
    simp [h]

theorem parse_empty_dir_isSome (line : Str) :
    (parse_empty_dir_line line).isSome
      = (EMPTY_DIR_PRE.isPrefixOf line && EMPTY_DIR_SUFFIX.isSuffixOf line) := by
  unfold parse_empty_dir_line
  cases h : (EMPTY_DIR_PRE.isPrefixOf line && EMPTY_DIR_SUFFIX.isSuffixOf line) <;>
    simp [h]

theorem parse_begin_binary_spec (line : Str) (p : Str) (bin : Bool)
    (hp : parse_begin_file_line line = (some p, bin)) :
    bin = BINARY_MARKER.isSuffixOf (path_part_begin line)
    ∧ p = (if bin then dropRightN BINARY_MARKER.length (path_part_begin line)
           else path_part_begin line) := by
  unfold parse_begin_file_line at hp
  by_cases h : (BEGIN_FILE_PRE.isPrefixOf line && BEGIN_FILE_SUFFIX.isSuffixOf line) = true
  · rw [if_pos h] at hp
    by_cases hb : BINARY_MARKER.isSuffixOf (path_part_begin line) = true
    · rw [if_pos hb] at hp
      simp only [Prod.mk.injEq, Option.some.injEq] at hp
      obtain ⟨hp1, hp2⟩ := hp
      subst hp1; subst hp2
      simp [hb]
    · rw [if_neg hb] at hp
      simp only [Prod.mk.injEq, Option.some.injEq] at hp
      obtain ⟨hp1, hp2⟩ := hp
      subst hp1; subst hp2
      simp only [Bool.not_eq_true] at hb
      simp [hb]
  · rw [if_neg h] at hp
    simp at hp

theorem parse_end_binary_spec (line : Str) (p : Str) (bin : Bool)
    (hp : parse_end_file_line line = (some p, bin)) :
    bin = BINARY_MARKER.isSuffixOf (path_part_end line)
    ∧ p = (if bin then dropRightN BINARY_MARKER.length (path_part_end line)
           else path_part_end line) := by
  unfold parse_end_file_line at hp
  by_cases h : (END_FILE_PRE.isPrefixOf line && END_FILE_SUFFIX.isSuffixOf line) = true
  · rw [if_pos h] at hp
    by_cases hb : BINARY_MARKER.isSuffixOf (path_part_end line) = true
    · rw [if_pos hb] at hp
      simp only [Prod.mk.injEq, Option.some.injEq] at hp
      obtain ⟨hp1, hp2⟩ := hp
      subst hp1; subst hp2
      simp [hb]
    · rw [if_neg hb] at hp
      simp only [Prod.mk.injEq, Option.some.injEq] at hp
      obtain ⟨hp1, hp2⟩ := hp
      subst hp1; subst hp2
      simp only [Bool.not_eq_true] at hb
      simp [hb]
  · rw [if_neg h] at hp
    simp at hp

/-- Claim C5: a line is classified as a BEGIN/END/EMPTY-DIR marker iff it has
the exact full prefix and the exact suffix; for BEGIN and END lines the
binary flag is set exactly when the inner slice ends with the binary marker,
in which case that suffix is stripped from the returned path. -/
theorem claim5_parser_classification (line : Str) :
    ((parse_begin_file_line line).1.isSome
      = (BEGIN_FILE_PRE.isPrefixOf line && BEGIN_FILE_SUFFIX.isSuffixOf line))
  ∧ ((parse_end_file_line line).1.isSome
      = (END_FILE_PRE.isPrefixOf line && END_FILE_SUFFIX.isSuffixOf line))
  ∧ ((parse_empty_dir_line line).isSome
      = (EMPTY_DIR_PRE.isPrefixOf line && EMPTY_DIR_SUFFIX.isSuffixOf line))
  ∧ (∀ p bin, parse_begin_file_line line = (some p, bin) →
      bin = BINARY_MARKER.isSuffixOf (path_part_begin line)
      ∧ p = (if bin then dropRightN BINARY_MARKER.length (path_part_begin line)
             else path_part_begin line))
  ∧ (∀ p bin, parse_end_file_line line = (some p, bin) →
      bin = BINARY_MARKER.isSuffixOf (path_part_end line)
      ∧ p = (if bin then dropRightN BINARY_MARKER.length (path_part_end line)
             else path_part_end line)) :=
  ⟨parse_begin_isSome line, parse_end_isSome line, parse_empty_dir_isSome line,
   fun p bin hp => parse_begin_binary_spec line p bin hp,
   fun p bin hp => parse_end_binary_spec line p bin hp⟩

/-- Witness for claim C5 at the concrete line
"--- BEGIN FILE: x (BINARY - BASE64 ENCODED) ---". -/
theorem claim5_parser_classification_witness :
    (true = BINARY_MARKER.isSuffixOf
        (path_part_begin (str "--- BEGIN FILE: x (BINARY - BASE64 ENCODED) ---")))
  ∧ (str "x" = if true then
        dropRightN BINARY_MARKER.length
          (path_part_begin (str "--- BEGIN FILE: x (BINARY - BASE64 ENCODED) ---"))
      else path_part_begin (str "--- BEGIN FILE: x (BINARY - BASE64 ENCODED) ---")) :=
  (claim5_parser_classification
      (str "--- BEGIN FILE: x (BINARY - BASE64 ENCODED) ---")).2.2.2.1
    (str "x") true (by decide)

/-! ## Bytes and the UTF-8 codec

Python reads file contents as `bytes` and moves between `bytes` and `str`
with the UTF-8 codec (`bytes.decode('utf-8', errors='ignore')` in the
flattener; writing a `str` to a file opened with `encoding='utf-8'` in the
restorer). Bytes are modelled as `Nat` (intended `< 256`). -/

/-- UTF-8 encoding of a single character (what writing one char of a `str`
to a UTF-8 text file produces). -/
def utf8EncodeChar (c : Char) : List Nat :=
  let n := c.toNat
  if n < 0x80 then [n]
  else if n < 0x800 then [0xC0 + n / 0x40, 0x80 + n % 0x40]
  else if n < 0x10000 then
    [0xE0 + n / 0x1000, 0x80 + n / 0x40 % 0x40, 0x80 + n % 0x40]
  else
    [0xF0 + n / 0x40000, 0x80 + n / 0x1000 % 0x40, 0x80 + n / 0x40 % 0x40,
     0x80 + n % 0x40]

/-- UTF-8 encoding of a string. -/
def utf8Encode (s : Str) : List Nat := (s.map utf8EncodeChar).flatten

/-- True when a byte is a UTF-8 continuation byte. -/
def isCont (b : Nat) : Bool := 0x80 ≤ b && b < 0xC0

/-- Decode one UTF-8 scalar starting at byte `b`; returns the character and
the number of FURTHER bytes consumed from `rest` (0 to 3), or `none` when
`b` does not begin a valid sequence here. -/
def utf8DecodeOne (b : Nat) (rest : List Nat) : Option (Char × Nat) :=
  if b < 0x80 then some (Char.ofNat b, 0)
  else if 0xC2 ≤ b && b < 0xE0 then
    match rest with
    | b1 :: _ =>
      if isCont b1 then some (Char.ofNat ((b - 0xC0) * 0x40 + (b1 - 0x80)), 1)
      else none
    | _ => none
  else if 0xE0 ≤ b && b < 0xF0 then
    match rest with
    | b1 :: b2 :: _ =>
      if isCont b1 && isCont b2 then
        if 0x800 ≤ (b - 0xE0) * 0x1000 + (b1 - 0x80) * 0x40 + (b2 - 0x80)
            && !(0xD800 ≤ (b - 0xE0) * 0x1000 + (b1 - 0x80) * 0x40 + (b2 - 0x80)
                 && (b - 0xE0) * 0x1000 + (b1 - 0x80) * 0x40 + (b2 - 0x80) < 0xE000) then
          some (Char.ofNat ((b - 0xE0) * 0x1000 + (b1 - 0x80) * 0x40 + (b2 - 0x80)), 2)
        else none
      else none
    | _ => none
  else if 0xF0 ≤ b && b < 0xF5 then
    match rest with
    | b1 :: b2 :: b3 :: _ =>
      if isCont b1 && isCont b2 && isCont b3 then
        if 0x10000 ≤ (b - 0xF0) * 0x40000 + (b1 - 0x80) * 0x1000
              + (b2 - 0x80) * 0x40 + (b3 - 0x80)
            && (b - 0xF0) * 0x40000 + (b1 - 0x80) * 0x1000
              + (b2 - 0x80) * 0x40 + (b3 - 0x80) < 0x110000 then
          some (Char.ofNat ((b - 0xF0) * 0x40000 + (b1 - 0x80) * 0x1000
              + (b2 - 0x80) * 0x40 + (b3 - 0x80)), 3)
        else none
      else none
    | _ => none
  else none

/-- Fuel-driven UTF-8 decoding loop: each step consumes at least the
leading byte, so any fuel of at least the list length is enough. -/
def utf8DecodeGo : Nat → List Nat → Str
  | 0, _ => []
  | _ + 1, [] => []
  | fuel + 1, b :: rest =>
    match utf8DecodeOne b rest with
    | some (c, k) => c :: utf8DecodeGo fuel (rest.drop k)
    | none => utf8DecodeGo fuel rest

/-- UTF-8 decoding with `errors='ignore'`: an invalid leading byte is
skipped and decoding continues (Python drops undecodable subparts). -/
def utf8Decode (bs : List Nat) : Str := utf8DecodeGo bs.length bs

/-- A byte string that the UTF-8 codec round-trips: decoding then encoding
reproduces it (equivalently, it is well-formed UTF-8). -/
def validUtf8 (bs : List Nat) : Bool := utf8Encode (utf8Decode bs) == bs

/-! ## The base64 module (model of `base64.b64encode` / `base64.b64decode`) -/

/-- Standard base64 alphabet. -/
def B64_ALPHABET : Str :=
  str "ABCDEFGHIJKLMNOPQRSTUVWXYZabcdefghijklmnopqrstuvwxyz0123456789+/"

/-- Character for a 6-bit value. -/
def b64ValToChar (n : Nat) : Char := B64_ALPHABET.getD n 'A'

/-- Index of a character in the alphabet, scanning from position `i`. -/
def b64CharToValAux (c : Char) : Str → Nat → Option Nat
  | [], _ => none
  | a :: rest, i => if a = c then some i else b64CharToValAux c rest (i + 1)

/-- Value of a base64 alphabet character, `none` for other characters. -/
def b64CharToVal (c : Char) : Option Nat := b64CharToValAux c B64_ALPHABET 0

/-- Model of `base64.b64encode` (standard alphabet, no line wrapping),
as a character string. -/
def b64encode : List Nat → Str
  | [] => []
  | [a] => [b64ValToChar (a / 4), b64ValToChar (a % 4 * 16), '=', '=']
  | [a, b] =>
    [b64ValToChar (a / 4), b64ValToChar (a % 4 * 16 + b / 16),
     b64ValToChar (b % 16 * 4), '=']
  | a :: b :: c :: rest =>
    b64ValToChar (a / 4) :: b64ValToChar (a % 4 * 16 + b / 16) ::
    b64ValToChar (b % 16 * 4 + c / 64) :: b64ValToChar (c % 64) ::
    b64encode rest

/-- The outcome of `base64.b64decode` on a `str` argument: decoded bytes,
a raised `binascii.Error` (which the restorer catches), or the
`ValueError` raised by `str.encode('ascii')` on a non-ASCII argument
(which the restorer does not catch, so the whole restoration aborts). -/
inductive B64Result where
  | ok (bytes : List Nat)
  | binErr
  | fatal
deriving DecidableEq

/-- The character loop of CPython's `binascii.a2b_base64` with
`strict_mode=False`, carried through its state: the position inside the
current quad, the leftover bits of the previous character, and the count
of the current pad run. A non-alphabet character is skipped; a pad at quad
position 0 or 1 is skipped; a pad at position 2 or 3 completes the input
once the position plus the pad run reaches 4 (any later data is ignored);
a stream ending mid-quad raises `binascii.Error`. -/
def a2bBase64Go : Str → Nat → Nat → Nat → List Nat → B64Result
  | [], quadPos, _, _, acc => if quadPos == 0 then .ok acc else .binErr
  | c :: rest, quadPos, leftchar, pads, acc =>
    if c = '=' then
      if 2 ≤ quadPos then
        if 4 ≤ quadPos + (pads + 1) then .ok acc
        else a2bBase64Go rest quadPos leftchar (pads + 1) acc
      else a2bBase64Go rest quadPos leftchar pads acc
    else
      match b64CharToVal c with
      | none => a2bBase64Go rest quadPos leftchar pads acc
      | some v =>
        match quadPos with
        | 0 => a2bBase64Go rest 1 v 0 acc
        | 1 => a2bBase64Go rest 2 (v % 16) 0 (acc ++ [leftchar * 4 + v / 16])
        | 2 => a2bBase64Go rest 3 (v % 4) 0 (acc ++ [leftchar * 16 + v / 4])
        | _ => a2bBase64Go rest 0 0 0 (acc ++ [leftchar * 64 + v])

/-- Model of `base64.b64decode` on a `str` argument: the string is first
ASCII-encoded (`ValueError`, hence `fatal`, on any character above 127),
then fed to `binascii.a2b_base64` in non-strict mode. -/
def b64decode (s : Str) : B64Result :=
  if s.all (fun c => c.toNat ≤ 127) then a2bBase64Go s 0 0 0 [] else .fatal

/-! ## file_utils.py -/

/-- file_utils.py `is_binary`: null byte within the first 1024 bytes. -/
def is_binary (content : List Nat) : Bool := (content.take 1024).contains 0

/-! ## flattener.py

A directory tree is a pure value; `ScripFlattener.flatten` walks
`sorted(root_path.rglob('*'))` — every descendant, ordered by the path
string (POSIX `Path.__lt__` compares the path strings, and comparing
absolute paths sharing the resolved root prefix is the same as comparing
the relative path strings). -/

/-- A filesystem entry: a regular file with its bytes, or a directory with
a named list of children. -/
inductive FSTree
  | file (content : List Nat)
  | dir (children : List (Str × FSTree))

/-- All descendants of a directory, as (relative path string, entry) pairs,
paths joined with `/` (the order is irrelevant: the flattener sorts). -/
def collectItems : Str → List (Str × FSTree) → List (Str × FSTree)
  | _, [] => []
  | pre, (name, t) :: rest =>
    ((pre ++ name, t) ::
      (match t with
       | .file _ => []
       | .dir cs => collectItems (pre ++ name ++ [Char.ofNat 47]) cs))
    ++ collectItems pre rest

/-- Python string `<` (lexicographic by code point). -/
def strLt : Str → Str → Bool
  | [], [] => false
  | [], _ :: _ => true
  | _ :: _, [] => false
  | x :: xs, y :: ys =>
    if x.toNat < y.toNat then true
    else if y.toNat < x.toNat then false
    else strLt xs ys

/-- Stable insertion of `x` into a sorted list: `x` goes in front of the
first element not below it (so earlier elements with equal keys stay in
front, as in Python's stable sort). -/
def insertByLt (lt : α → α → Bool) (x : α) : List α → List α
  | [] => [x]
  | y :: ys => if lt y x then y :: insertByLt lt x ys else x :: y :: ys

/-- Stable ascending sort by a strict comparison, modelling Python
`sorted`. -/
def sortByLt (lt : α → α → Bool) : List α → List α
  | [] => []
  | x :: xs => insertByLt lt x (sortByLt lt xs)

/-- The sorted traversal `sorted(root_path.rglob('*'))`: all descendants
in ascending order of the relative path string (`Path.__lt__` compares
the path strings, and with a shared resolved root prefix that is the
order of the relative path strings). -/
def sortedItems (root : List (Str × FSTree)) : List (Str × FSTree) :=
  sortByLt (fun x y => strLt x.1 y.1) (collectItems [] root)

/-- flattener.py `_write_text_file`: the bytes decoded permissively as
UTF-8, with one newline appended when the raw content does not end in a
newline byte. -/
def writeTextContent (content : List Nat) : Str :=
  utf8Decode content ++ (if content.getLast? == some 10 then [] else ['\n'])

/-- flattener.py `_write_binary_file`: one base64 line plus a newline. -/
def writeBinaryContent (content : List Nat) : Str :=
  b64encode content ++ ['\n']

/-- The archive text one sorted traversal item contributes
(`_process_empty_directory` / `_process_file`). The per-file read-error
fallback (`Error reading file content: ...`) is an I/O failure path with no
counterpart in a pure tree and is not modelled. -/
def renderItem : Str × FSTree → Str
  | (p, .dir cs) =>
    if cs.isEmpty then EMPTY_DIR_PRE ++ p ++ EMPTY_DIR_SUFFIX ++ ['\n'] else []
  | (p, .file content) =>
    (BEGIN_FILE_PRE ++ p ++ (if is_binary content then BINARY_MARKER else [])
      ++ BEGIN_FILE_SUFFIX ++ ['\n'])
    ++ (if is_binary content then writeBinaryContent content
        else writeTextContent content)
    ++ (END_FILE_PRE ++ p ++ (if is_binary content then BINARY_MARKER else [])
      ++ END_FILE_SUFFIX ++ ['\n'])

/-- flattener.py `ScripFlattener.flatten` on an existing directory: the
full archive text (written to the output file as UTF-8). -/
def flattenArchive (root : List (Str × FSTree)) : Str :=
  ((sortedItems root).map renderItem).flatten

/-! ## restorer.py -/

/-- Splitting a text stream into lines as Python file iteration does: each
line keeps its trailing newline; a final unterminated line is kept too. -/
def splitLinesAux (acc : Str) : Str → List Str
  | [] => if acc.isEmpty then [] else [acc]
  | c :: rest =>
    if c = '\n' then (acc ++ ['\n']) :: splitLinesAux [] rest
    else splitLinesAux (acc ++ [c]) rest

/-- Lines of a string, Python text-file style. -/
def splitLines (s : Str) : List Str := splitLinesAux [] s

/-- Universal-newline translation performed by text-mode reading
(`open(..., 'r')`): `"\r\n"` and `"\r"` both become `"\n"`. -/
def translateNewlines : Str → Str
  | [] => []
  | c :: rest =>
    if c = '\r' then
      match rest with
      | d :: rest2 =>
        if d = '\n' then '\n' :: translateNewlines rest2
        else '\n' :: translateNewlines (d :: rest2)
      | [] => ['\n']
    else c :: translateNewlines rest

/-- A filesystem effect of the restorer, in program order:
* `mkdirRoot` — `output_root.mkdir(parents=True, exist_ok=True)`;
* `openFile p bin` — create parent dirs of `p` and open it for writing
  (truncating), in binary or text mode (`_handle_begin_file`);
* `writeFile p data` — the bytes written into the currently open file by
  `_write_buffered_content` (for text mode, the UTF-8 encoding of the
  string passed to `file_handle.write`);
* `mkdir p` — `target_path.mkdir(parents=True, exist_ok=True)`
  (`_handle_empty_dir`). -/
inductive WOp
  | mkdirRoot
  | openFile (path : Str) (binary : Bool)
  | writeFile (path : Str) (data : List Nat)
  | mkdir (path : Str)
deriving DecidableEq

/-- A warning printed by the restorer. -/
inductive RWarn
  | decodeFailure
  | endMismatch (gotPath : Str) (gotBin : Bool) (expPath : Str) (expBin : Bool)
  | endWithoutOpen (line : Str)
  | truncated (path : Str)
deriving DecidableEq

/-- The Pass-2 loop state of `_process_file_contents`: the currently open
target file (relative path and binary flag) and the content buffer. -/
structure RState where
  current : Option (Str × Bool)
  buffer : List Str
deriving DecidableEq

/-- The state with no file open and an empty buffer. -/
def initState : RState := { current := none, buffer := [] }

/-- The heuristic in `_write_buffered_content` that undoes the newline the
flattener may have appended: a single trailing newline is stripped unless
the character before it is also a newline. -/
def stripFlattenerNewline (file_content : Str) : Str :=
  if file_content.getLast? == some '\n' then
    if 2 ≤ file_content.length
        && file_content.getD (file_content.length - 2) ' ' == '\n' then
      file_content
    else file_content.dropLast
  else file_content

/-- restorer.py `_write_buffered_content`: flush the buffered content lines
into the open file; returns the writes, the warnings, and whether the
flush raised an exception the restorer does not catch (the `ValueError`
of `base64.b64decode` on a non-ASCII buffered line; it occurs before the
write, so an aborting flush contributes no write). -/
def writeBufferedContent (path : Str) (bin : Bool) (buffer : List Str) :
    List WOp × List RWarn × Bool :=
  if buffer.isEmpty then ([], [], false)
  else if bin then
    match b64decode (rstripNewlines (buffer.headD [])) with
    | .ok bytes => ([.writeFile path bytes], [], false)
    | .binErr => ([], [.decodeFailure], false)
    | .fatal => ([], [], true)
  else
    ([.writeFile path (utf8Encode (stripFlattenerNewline buffer.flatten))], [], false)

/-- Flush-and-close of the currently open file, if any (the code path taken
when a new BEGIN or EMPTY DIR marker arrives while a file is open; no
warning is printed there because `_handle_begin_file`/`_handle_empty_dir`
are called with `current_handle=None`). -/
def flushCurrent (st : RState) : List WOp × List RWarn × Bool :=
  match st.current with
  | some (cp, cb) => writeBufferedContent cp cb st.buffer
  | none => ([], [], false)

/-- One iteration of the Pass-2 loop in `_process_file_contents`. The last
component records an uncaught exception: the iteration's remaining work
(the open or mkdir after a flush, the END bookkeeping) is skipped and the
whole loop stops. -/
def processLine (st : RState) (line : Str) : List WOp × List RWarn × RState × Bool :=
  match parse_begin_file_line (rstripNewlines line) with
  | (some p, bin) =>
    if (flushCurrent st).2.2 then ((flushCurrent st).1, (flushCurrent st).2.1, st, true)
    else
      ((flushCurrent st).1 ++ [.openFile p bin], (flushCurrent st).2.1,
       { current := some (p, bin), buffer := [] }, false)
  | (none, _) =>
  match parse_empty_dir_line (rstripNewlines line) with
  | some p =>
    if (flushCurrent st).2.2 then ((flushCurrent st).1, (flushCurrent st).2.1, st, true)
    else
      ((flushCurrent st).1 ++ [.mkdir p], (flushCurrent st).2.1,
       { current := none, buffer := [] }, false)
  | none =>
  match parse_end_file_line (rstripNewlines line) with
  | (some p, bin) =>
    match st.current with
    | some (cp, cb) =>
      if (writeBufferedContent cp cb st.buffer).2.2 then
        ((writeBufferedContent cp cb st.buffer).1,
         (writeBufferedContent cp cb st.buffer).2.1, st, true)
      else
        ((writeBufferedContent cp cb st.buffer).1,
         (writeBufferedContent cp cb st.buffer).2.1
           ++ (if p ≠ cp ∨ bin ≠ cb then [.endMismatch p bin cp cb] else []),
         { current := none, buffer := [] }, false)
    | none =>
      ([], [.endWithoutOpen (rstripNewlines line)],
       { current := none, buffer := [] }, false)
  | (none, _) =>
    match st.current with
    | some _ => ([], [], { st with buffer := st.buffer ++ [line] }, false)
    | none => ([], [], st, false)

/-- The Pass-2 loop over a list of lines; an uncaught exception stops it. -/
def processLines (st : RState) : List Str → List WOp × List RWarn × RState × Bool
  | [] => ([], [], st, false)
  | l :: rest =>
    if (processLine st l).2.2.2 then processLine st l
    else
      ((processLine st l).1 ++ (processLines (processLine st l).2.2.1 rest).1,
       (processLine st l).2.1 ++ (processLines (processLine st l).2.2.1 rest).2.1,
       (processLines (processLine st l).2.2.1 rest).2.2.1,
       (processLines (processLine st l).2.2.1 rest).2.2.2)

/-- restorer.py `_process_file_contents`: the loop plus the end-of-stream
handling (a still-open file is flushed, a truncation warning printed, and
the file closed; an exception raised by the final flush skips the warning
and propagates). -/
def processFileContents (lines : List Str) : List WOp × List RWarn × Bool :=
  match processLines initState lines with
  | (ops, warns, st, true) => (ops, warns, true)
  | (ops, warns, st, false) =>
    match st.current with
    | some (cp, cb) =>
      if (writeBufferedContent cp cb st.buffer).2.2 then
        (ops ++ (writeBufferedContent cp cb st.buffer).1,
         warns ++ (writeBufferedContent cp cb st.buffer).2.1, true)
      else
        (ops ++ (writeBufferedContent cp cb st.buffer).1,
         warns ++ (writeBufferedContent cp cb st.buffer).2.1 ++ [.truncated cp], false)
    | none => (ops, warns, false)

/-- The path a Pass-1 line contributes to the conflict scan
(`_check_conflicts` recognises BEGIN FILE and EMPTY DIR markers only). -/
def markerPath (line : Str) : Option Str :=
  match parse_begin_file_line (rstripNewlines line) with
  | (some p, _) => some p
  | (none, _) => parse_empty_dir_line (rstripNewlines line)

/-- restorer.py `_check_conflicts`: every marker path whose target
(`output_root / path`) already exists, in stream order. `existsAt`
abstracts `Path.exists` on the pre-state, keyed by the relative path. -/
def checkConflicts (lines : List Str) (existsAt : Str → Bool) : List Str :=
  lines.filterMap fun l =>
    match markerPath l with
    | some p => if existsAt p then some p else none
    | none => none

/-- The fatal error of a restore run: a raised `FileExistsError` listing
the conflicting paths relative to the destination root, or the `IOError`
into which `_perform_restoration` wraps any exception escaping Pass 2. -/
inductive RError
  | pathConflict (conflicts : List Str)
  | ioError
deriving DecidableEq

/-- restorer.py `ScripRestorer.restore` on a readable input: conflict scan
first; on any conflict, raise with the conflict list and perform no write;
otherwise create the destination root and replay the stream (an exception
escaping the replay is re-raised as an `IOError`; the writes already
performed persist). Returns the writes, the warnings, and the error if one
is raised. -/
def restoreArchive (archive : Str) (existsAt : Str → Bool) :
    List WOp × List RWarn × Option RError :=
  if (checkConflicts (splitLines (translateNewlines archive)) existsAt).isEmpty then
    (WOp.mkdirRoot :: (processFileContents (splitLines (translateNewlines archive))).1,
     (processFileContents (splitLines (translateNewlines archive))).2.1,
     if (processFileContents (splitLines (translateNewlines archive))).2.2 then
       some .ioError
     else none)
  else
    ([], [],
     some (.pathConflict (checkConflicts (splitLines (translateNewlines archive)) existsAt)))

/-! ## String utility lemmas -/

theorem isPrefixOf_append_self (a x : Str) : a.isPrefixOf (a ++ x) = true := by
  rw [List.isPrefixOf_iff_prefix]
  exact List.prefix_append a x

theorem isSuffixOf_append_self (a x : Str) : a.isSuffixOf (x ++ a) = true := by
  rw [List.isSuffixOf_iff_suffix]
  exact List.suffix_append x a

theorem isPrefixOf_false_of_take_ne (a s : Str) (n : Nat) (hn : n ≤ a.length)
    (h : ¬ a.take n = s.take n) : a.isPrefixOf s = false := by
  cases hb : a.isPrefixOf s
  · rfl
  · exfalso
    rw [List.isPrefixOf_iff_prefix] at hb
    obtain ⟨t, rfl⟩ := hb
    exact h (List.take_append_of_le_length hn).symm

theorem dropRightN_append (x a : Str) (h : a.length = n) :
    dropRightN n (x ++ a) = x := by
  unfold dropRightN
  rw [List.length_append, h, Nat.add_sub_cancel]
  exact List.take_left x a

theorem path_part_begin_append (p : Str) :
    path_part_begin (BEGIN_FILE_PRE ++ p ++ BEGIN_FILE_SUFFIX) = p := by
  unfold path_part_begin
  rw [List.append_assoc, List.drop_left]
  exact dropRightN_append p BEGIN_FILE_SUFFIX rfl

theorem path_part_end_append (p : Str) :
    path_part_end (END_FILE_PRE ++ p ++ END_FILE_SUFFIX) = p := by
  unfold path_part_end
  rw [List.append_assoc, List.drop_left]
  exact dropRightN_append p END_FILE_SUFFIX rfl

theorem path_part_empty_dir_append (p : Str) :
    path_part_empty_dir (EMPTY_DIR_PRE ++ p ++ EMPTY_DIR_SUFFIX) = p := by
  unfold path_part_empty_dir
  rw [List.append_assoc, List.drop_left]
  exact dropRightN_append p EMPTY_DIR_SUFFIX rfl

/-! Parsing the exact marker lines the flattener writes. -/

theorem parse_begin_marker_text (p : Str) (hb : BINARY_MARKER.isSuffixOf p = false) :
    parse_begin_file_line (BEGIN_FILE_PRE ++ p ++ BEGIN_FILE_SUFFIX) = (some p, false) := by
  unfold parse_begin_file_line
  rw [path_part_begin_append, List.append_assoc, isPrefixOf_append_self,
      ← List.append_assoc, isSuffixOf_append_self, hb]
  simp

theorem parse_begin_marker_bin (p : Str) :
    parse_begin_file_line (BEGIN_FILE_PRE ++ (p ++ BINARY_MARKER) ++ BEGIN_FILE_SUFFIX)
      = (some p, true) := by
  unfold parse_begin_file_line
  rw [path_part_begin_append, List.append_assoc, isPrefixOf_append_self,
      ← List.append_assoc, isSuffixOf_append_self, isSuffixOf_append_self]
  simp
  exact dropRightN_append p BINARY_MARKER rfl

theorem parse_end_marker_text (p : Str) (hb : BINARY_MARKER.isSuffixOf p = false) :
    parse_end_file_line (END_FILE_PRE ++ p ++ END_FILE_SUFFIX) = (some p, false) := by
  unfold parse_end_file_line
  rw [path_part_end_append, List.append_assoc, isPrefixOf_append_self,
      ← List.append_assoc, isSuffixOf_append_self, hb]
  simp

theorem parse_end_marker_bin (p : Str) :
    parse_end_file_line (END_FILE_PRE ++ (p ++ BINARY_MARKER) ++ END_FILE_SUFFIX)
      = (some p, true) := by
  unfold parse_end_file_line
  rw [path_part_end_append, List.append_assoc, isPrefixOf_append_self,
      ← List.append_assoc, isSuffixOf_append_self, isSuffixOf_append_self]
  simp
  exact dropRightN_append p BINARY_MARKER rfl

theorem parse_empty_dir_marker (p : Str) :
    parse_empty_dir_line (EMPTY_DIR_PRE ++ p ++ EMPTY_DIR_SUFFIX) = some p := by
  unfold parse_empty_dir_line
  rw [path_part_empty_dir_append, List.append_assoc, isPrefixOf_append_self,
      ← List.append_assoc, isSuffixOf_append_self]
  simp

/-! Marker prefixes never masquerade as one another. -/

theorem parse_begin_of_end_line (x : Str) :
    parse_begin_file_line (END_FILE_PRE ++ x) = (none, false) := by
  unfold parse_begin_file_line
  rw [isPrefixOf_false_of_take_ne BEGIN_FILE_PRE (END_FILE_PRE ++ x) 14 (by decide)
      (by rw [List.take_append_of_le_length (by decide)]; decide)]
  simp

theorem parse_begin_of_empty_dir_line (x : Str) :
    parse_begin_file_line (EMPTY_DIR_PRE ++ x) = (none, false) := by
  unfold parse_begin_file_line
  rw [isPrefixOf_false_of_take_ne BEGIN_FILE_PRE (EMPTY_DIR_PRE ++ x) 15 (by decide)
      (by rw [List.take_append_of_le_length (by decide)]; decide)]
  simp

theorem parse_empty_dir_of_end_line (x : Str) :
    parse_empty_dir_line (END_FILE_PRE ++ x) = none := by
  unfold parse_empty_dir_line
  rw [isPrefixOf_false_of_take_ne EMPTY_DIR_PRE (END_FILE_PRE ++ x) 14 (by decide)
      (by rw [List.take_append_of_le_length (by decide)]; decide)]
  simp

/-! `rstripNewlines` and `endsNL`. -/

theorem rstripNewlines_append_nl (s : Str) :
    rstripNewlines (s ++ ['\n']) = rstripNewlines s := by
  unfold rstripNewlines
  rw [List.reverse_append]
  rfl

theorem rstripNewlines_eq_self (s : Str) (h : endsNL s = false) :
    rstripNewlines s = s := by
  unfold rstripNewlines
  cases hs : s.reverse with
  | nil =>
    have : s = [] := by
      have := congrArg List.reverse hs
      simpa using this
    simp [this]
  | cons c t =>
    have hc : (c == '\n') = false := by
      unfold endsNL at h
      rw [List.getLast?_eq_head?_reverse, hs] at h
      simpa using h
    rw [List.dropWhile_cons, hc]
    simp only [Bool.false_eq_true, if_false]
    rw [← hs, List.reverse_reverse]

theorem endsNL_append_marker (x a : Str) (ha : a ≠ []) (h : endsNL a = false) :
    endsNL (x ++ a) = false := by
  unfold endsNL at h ⊢
  rw [List.getLast?_append]
  cases hla : a.getLast? with
  | none => simp [List.getLast?_eq_none_iff] at hla; exact absurd hla ha
  | some c =>
    rw [hla] at h
    simp [hla]
    simpa using h

/-! `splitLines` lemmas. -/

theorem endsNL_cons (c : Char) (rest : Str) (h : rest ≠ []) :
    endsNL (c :: rest) = endsNL rest := by
  unfold endsNL
  rcases rest with _ | ⟨d, t⟩
  · exact absurd rfl h
  · rw [List.getLast?_cons_cons]

theorem splitLinesAux_append (a : Str) :
    ∀ (acc b : Str), endsNL a = true →
      splitLinesAux acc (a ++ b) = splitLinesAux acc a ++ splitLinesAux [] b := by
  induction a with
  | nil => intro acc b h; simp [endsNL] at h
  | cons c rest ih =>
    intro acc b h
    by_cases hc : c = '\n'
    · subst hc
      by_cases hr : rest = []
      · subst hr
        simp [splitLinesAux]
      · have hrnl : endsNL rest = true := by rwa [endsNL_cons '\n' rest hr] at h
        simp only [List.cons_append, splitLinesAux, if_pos rfl, List.append_eq]
        rw [ih [] b hrnl]
        simp
    · have hrne : rest ≠ [] := by
        intro hr
        subst hr
        unfold endsNL at h
        simp at h
        exact hc h
      have hrnl : endsNL rest = true := by rwa [endsNL_cons c rest hrne] at h
      simp only [List.cons_append, splitLinesAux, if_neg hc, List.append_eq]
      exact ih (acc ++ [c]) b hrnl

theorem splitLines_append (a b : Str) (h : endsNL a = true) :
    splitLines (a ++ b) = splitLines a ++ splitLines b :=
  splitLinesAux_append a [] b h

theorem splitLinesAux_single (x : Str) :
    ∀ acc : Str, noNL x = true → splitLinesAux acc (x ++ ['\n']) = [acc ++ x ++ ['\n']] := by
  induction x with
  | nil => intro acc _; simp [splitLinesAux]
  | cons c rest ih =>
    intro acc h
    have hc : c ≠ '\n' := by
      unfold noNL at h
      simp at h
      exact h.1
    simp only [List.cons_append, splitLinesAux, if_neg hc, List.append_eq]
    rw [ih (acc ++ [c]) (by unfold noNL at h ⊢; simp at h ⊢; exact h.2)]
    simp

theorem splitLines_single (x : Str) (h : noNL x = true) :
    splitLines (x ++ ['\n']) = [x ++ ['\n']] := by
  have := splitLinesAux_single x [] h
  simpa [splitLines] using this

theorem splitLinesAux_flatten (s : Str) :
    ∀ acc : Str, (splitLinesAux acc s).flatten = acc ++ s := by
  induction s with
  | nil =>
    intro acc
    by_cases h : acc = [] <;> simp [splitLinesAux, h]
  | cons c rest ih =>
    intro acc
    by_cases hc : c = '\n'
    · subst hc
      simp [splitLinesAux, ih]
    · simp [splitLinesAux, if_neg hc, ih]

theorem splitLines_flatten (s : Str) : (splitLines s).flatten = s := by
  simpa [splitLines] using splitLinesAux_flatten s []

theorem splitLines_eq_nil_iff (s : Str) : splitLines s = [] ↔ s = [] := by
  constructor
  · intro h
    have := splitLines_flatten s
    rw [h] at this
    simpa using this.symm
  · intro h
    simp [h, splitLines, splitLinesAux]

/-! `translateNewlines` is the identity on CR-free text. -/

theorem translateNewlines_eq_self (s : Str) (h : noCR s = true) :
    translateNewlines s = s := by
  induction s with
  | nil => simp [translateNewlines]
  | cons c rest ih =>
    have hc : c ≠ '\r' := by
      unfold noCR at h
      simp at h
      exact h.1
    rw [translateNewlines.eq_def]
    simp only
    rw [if_neg hc]
    rw [ih (by unfold noCR at h ⊢; simp at h ⊢; exact h.2)]

/-! The trailing-newline heuristic of `_write_buffered_content`. -/

theorem stripFlattenerNewline_append_nl (s : Str) (h : endsNL s = false) :
    stripFlattenerNewline (s ++ ['\n']) = s := by
  unfold stripFlattenerNewline
  rw [if_pos (by simp [List.getLast?_concat])]
  rcases hlast : s.getLast? with _ | x
  · have hnil : s = [] := by simpa [List.getLast?_eq_none_iff] using hlast
    subst hnil
    simp
  · have hne : s ≠ [] := by
      intro hh
      rw [hh] at hlast
      simp at hlast
    have hpos : 0 < s.length := List.length_pos.mpr hne
    have hx : ¬ x = '\n' := by
      unfold endsNL at h
      rw [hlast] at h
      simpa using h
    have hidx : (s ++ ['\n']).length - 2 = s.length - 1 := by
      rw [List.length_append]
      simp
    have hgd : (s ++ ['\n']).getD ((s ++ ['\n']).length - 2) ' ' = x := by
      rw [hidx, List.getD_eq_getElem?_getD, List.getElem?_append_left (by omega)]
      rw [List.getLast?_eq_getElem?] at hlast
      rw [hlast]
      rfl
    have hncond : ¬ ((2 ≤ (s ++ ['\n']).length
        && (s ++ ['\n']).getD ((s ++ ['\n']).length - 2) ' ' == '\n') = true) := by
      simp only [Bool.and_eq_true, beq_iff_eq, decide_eq_true_eq, not_and]
      intro _ hcontra
      rw [hgd] at hcontra
      exact hx hcontra
    rw [if_neg hncond]
    exact List.dropLast_concat

theorem stripFlattenerNewline_double_nl (s : Str) (h1 : endsNL s = true)
    (h2 : endsNL s.dropLast = true) : stripFlattenerNewline s = s := by
  unfold stripFlattenerNewline
  unfold endsNL at h1 h2
  rw [if_pos (by simpa using h1)]
  have hdlne : s.dropLast ≠ [] := by
    intro hh
    rw [hh] at h2
    simp at h2
  have hlen2 : 2 ≤ s.length := by
    have hdll := List.length_dropLast s
    have hpos : 0 < s.dropLast.length := List.length_pos.mpr hdlne
    omega
  have hcond : (2 ≤ s.length && s.getD (s.length - 2) ' ' == '\n') = true := by
    simp only [Bool.and_eq_true, beq_iff_eq, decide_eq_true_eq]
    refine ⟨hlen2, ?_⟩
    rw [List.getLast?_eq_getElem?, List.getElem?_dropLast, List.length_dropLast] at h2
    rw [if_pos (by omega)] at h2
    have hidx : s.length - 1 - 1 = s.length - 2 := by omega
    rw [hidx] at h2
    simp only [beq_iff_eq] at h2
    rw [List.getD_eq_getElem?_getD, h2]
    rfl
  rw [if_pos hcond]

/-! ## UTF-8 lemmas -/

theorem utf8EncodeChar_ne_nil (c : Char) : utf8EncodeChar c ≠ [] := by
  simp only [utf8EncodeChar]
  split
  · simp
  · split
    · simp
    · split <;> simp

theorem utf8Encode_append (s t : Str) :
    utf8Encode (s ++ t) = utf8Encode s ++ utf8Encode t := by
  simp [utf8Encode]

theorem utf8EncodeChar_getLast_nl (c : Char) :
    ((utf8EncodeChar c).getLast? = some 10) ↔ c = '\n' := by
  constructor
  · intro h
    simp only [utf8EncodeChar] at h
    split at h
    · simp only [List.getLast?_singleton, Option.some.injEq] at h
      have h2 := congrArg Char.ofNat h
      rw [Char.ofNat_toNat] at h2
      exact h2
    · split at h
      · simp only [List.getLast?_cons_cons, List.getLast?_singleton,
          Option.some.injEq] at h
        omega
      · split at h
        · simp only [List.getLast?_cons_cons, List.getLast?_singleton,
            Option.some.injEq] at h
          omega
        · simp only [List.getLast?_cons_cons, List.getLast?_singleton,
            Option.some.injEq] at h
          omega
  · intro h
    subst h
    rfl

theorem utf8Encode_singleton (c : Char) : utf8Encode [c] = utf8EncodeChar c := by
  simp [utf8Encode]

theorem utf8Encode_getLast_nl (s : Str) :
    ((utf8Encode s).getLast? = some 10) ↔ (s.getLast? = some '\n') := by
  induction s using List.reverseRecOn with
  | nil => simp [utf8Encode]
  | append_singleton t c _ =>
    rw [utf8Encode_append, utf8Encode_singleton, List.getLast?_append,
        List.getLast?_concat]
    cases hl : (utf8EncodeChar c).getLast? with
    | none =>
      exfalso
      exact utf8EncodeChar_ne_nil c (by simpa [List.getLast?_eq_none_iff] using hl)
    | some b =>
      have hor : (some b).or (utf8Encode t).getLast? = some b := rfl
      rw [hor]
      constructor
      · intro hb
        have hb10 : b = 10 := by simpa using hb
        subst hb10
        have hc := (utf8EncodeChar_getLast_nl c).mp hl
        rw [hc]
      · intro hc
        have hc2 : c = '\n' := by simpa using hc
        subst hc2
        have h2 := (utf8EncodeChar_getLast_nl '\n').mpr rfl
        rw [h2] at hl
        exact hl.symm

theorem utf8DecodeOne_append_nl (b : Nat) (rest : List Nat) :
    utf8DecodeOne b (rest ++ [10]) = utf8DecodeOne b rest := by
  rcases rest with _ | ⟨b1, _ | ⟨b2, _ | ⟨b3, tl⟩⟩⟩ <;>
    simp [utf8DecodeOne, isCont]

theorem utf8DecodeOne_k_le (b : Nat) (rest : List Nat) (c : Char) (k : Nat)
    (h : utf8DecodeOne b rest = some (c, k)) : k ≤ rest.length := by
  rcases rest with _ | ⟨b1, _ | ⟨b2, _ | ⟨b3, tl⟩⟩⟩ <;>
    simp only [utf8DecodeOne] at h <;>
    repeat' split at h
  all_goals simp_all
  all_goals omega

theorem utf8DecodeGo_fuel (fuel1 : Nat) : ∀ (fuel2 : Nat) (bs : List Nat),
    bs.length ≤ fuel1 → bs.length ≤ fuel2 →
      utf8DecodeGo fuel1 bs = utf8DecodeGo fuel2 bs := by
  induction fuel1 with
  | zero =>
    intro fuel2 bs h1 _
    have hb : bs = [] := List.length_eq_zero.mp (Nat.le_zero.mp h1)
    subst hb
    cases fuel2 <;> rfl
  | succ f ih =>
    intro fuel2 bs h1 h2
    rcases bs with _ | ⟨b, rest⟩
    · cases fuel2 <;> rfl
    · rcases fuel2 with _ | f2
      · simp at h2
      · simp only [List.length_cons] at h1 h2
        simp only [utf8DecodeGo]
        cases hone : utf8DecodeOne b rest with
        | none =>
          show utf8DecodeGo f rest = utf8DecodeGo f2 rest
          exact ih f2 rest (by omega) (by omega)
        | some ck =>
          obtain ⟨c, k⟩ := ck
          have hk := utf8DecodeOne_k_le b rest c k hone
          have hlen : (rest.drop k).length ≤ rest.length := by
            rw [List.length_drop]
            omega
          show c :: utf8DecodeGo f (rest.drop k) = c :: utf8DecodeGo f2 (rest.drop k)
          rw [ih f2 (rest.drop k) (by omega) (by omega)]

theorem utf8DecodeGo_append_nl (fuel : Nat) : ∀ bs : List Nat, bs.length < fuel →
    utf8DecodeGo fuel (bs ++ [10]) = utf8DecodeGo fuel bs ++ ['\n'] := by
  induction fuel with
  | zero => intro bs h; omega
  | succ f ih =>
    intro bs hb
    rcases bs with _ | ⟨b, rest⟩
    · show utf8DecodeGo (f + 1) [10] = utf8DecodeGo (f + 1) [] ++ ['\n']
      simp only [utf8DecodeGo, utf8DecodeOne]
      rw [if_pos (by omega)]
      cases f <;> rfl
    · simp only [List.length_cons] at hb
      simp only [List.cons_append, utf8DecodeGo, List.append_eq,
        utf8DecodeOne_append_nl]
      cases hone : utf8DecodeOne b rest with
      | none =>
        show utf8DecodeGo f (rest ++ [10]) = utf8DecodeGo f rest ++ ['\n']
        exact ih rest (by omega)
      | some ck =>
        obtain ⟨c, k⟩ := ck
        have hk := utf8DecodeOne_k_le b rest c k hone
        show c :: utf8DecodeGo f ((rest ++ [10]).drop k)
            = c :: (utf8DecodeGo f (rest.drop k) ++ ['\n'])
        rw [List.drop_append_of_le_length hk]
        rw [ih (rest.drop k) (by rw [List.length_drop]; omega)]

theorem utf8Decode_append_nl (bs : List Nat) :
    utf8Decode (bs ++ [10]) = utf8Decode bs ++ ['\n'] := by
  unfold utf8Decode
  have hlen : (bs ++ [10]).length = bs.length + 1 := by simp
  rw [hlen, utf8DecodeGo_append_nl (bs.length + 1) bs (by omega),
      utf8DecodeGo_fuel (bs.length + 1) bs.length bs (by omega) le_rfl]

theorem utf8Decode_ends_nl (bs : List Nat) (h : bs.getLast? = some 10) :
    endsNL (utf8Decode bs) = true := by
  have hne : bs ≠ [] := by
    intro hh
    rw [hh] at h
    simp at h
  have hdec : bs = bs.dropLast ++ [10] := by
    have h1 := List.dropLast_concat_getLast hne
    have h2 : bs.getLast hne = 10 := by
      have := List.getLast?_eq_getLast bs hne
      rw [h] at this
      exact (Option.some.injEq _ _ ▸ this.symm)
    rw [h2] at h1
    exact h1.symm
  rw [hdec, utf8Decode_append_nl]
  simp [endsNL, List.getLast?_concat]

/-! ## base64 lemmas -/

theorem b64_val_char_lt : ∀ n < 64, b64CharToVal (b64ValToChar n) = some n := by
  decide

theorem b64_val_char_mem (n : Nat) : b64ValToChar n ∈ B64_ALPHABET := by
  unfold b64ValToChar
  by_cases h : n < B64_ALPHABET.length
  · rw [List.getD_eq_getElem?_getD, List.getElem?_eq_getElem h]
    exact List.getElem_mem h
  · rw [List.getD_eq_getElem?_getD, List.getElem?_eq_none (by omega)]
    decide

theorem alphabet_char_props : ∀ c ∈ B64_ALPHABET,
    (b64CharToVal c).isSome = true ∧ c ≠ '\n' ∧ c ≠ '\r' ∧ c ≠ '-' ∧ c ≠ '=' := by
  decide

theorem b64ValToChar_ne_pad (n : Nat) : ¬ b64ValToChar n = '=' := by
  intro h
  have hm := b64_val_char_mem n
  rw [h] at hm
  exact absurd hm (by decide)

theorem b64encode_mem (bs : List Nat) :
    ∀ c ∈ b64encode bs, c ∈ B64_ALPHABET ∨ c = '=' := by
  induction bs using b64encode.induct with
  | case1 =>
    intro c hc
    simp [b64encode] at hc
  | case2 a =>
    intro c hc
    simp only [b64encode, List.mem_cons, List.not_mem_nil, or_false] at hc
    rcases hc with h | h | h | h <;> subst h
    · exact .inl (b64_val_char_mem _)
    · exact .inl (b64_val_char_mem _)
    · exact .inr rfl
    · exact .inr rfl
  | case3 a b =>
    intro c hc
    simp only [b64encode, List.mem_cons, List.not_mem_nil, or_false] at hc
    rcases hc with h | h | h | h <;> subst h
    · exact .inl (b64_val_char_mem _)
    · exact .inl (b64_val_char_mem _)
    · exact .inl (b64_val_char_mem _)
    · exact .inr rfl
  | case4 a b c2 rest ih =>
    intro c hc
    simp only [b64encode, List.mem_cons] at hc
    rcases hc with h | h | h | h | h
    · exact h ▸ .inl (b64_val_char_mem _)
    · exact h ▸ .inl (b64_val_char_mem _)
    · exact h ▸ .inl (b64_val_char_mem _)
    · exact h ▸ .inl (b64_val_char_mem _)
    · exact ih c h

theorem b64encode_noNL (bs : List Nat) : noNL (b64encode bs) = true := by
  unfold noNL
  rw [List.all_eq_true]
  intro c hc
  rcases b64encode_mem bs c hc with hm | he
  · have := (alphabet_char_props c hm).2.1
    simpa using this
  · subst he
    decide

theorem b64encode_noCR (bs : List Nat) : noCR (b64encode bs) = true := by
  unfold noCR
  rw [List.all_eq_true]
  intro c hc
  rcases b64encode_mem bs c hc with hm | he
  · have := (alphabet_char_props c hm).2.2.1
    simpa using this
  · subst he
    decide

theorem b64encode_filter (bs : List Nat) :
    (b64encode bs).filter (fun c => (b64CharToVal c).isSome || c == '=')
      = b64encode bs := by
  rw [List.filter_eq_self]
  intro c hc
  rcases b64encode_mem bs c hc with hm | he
  · simp [(alphabet_char_props c hm).1]
  · simp [he]

theorem b64_ascii_char : ∀ c ∈ B64_ALPHABET, c.toNat ≤ 127 := by decide

theorem b64encode_ascii (bs : List Nat) :
    (b64encode bs).all (fun c => c.toNat ≤ 127) = true := by
  rw [List.all_eq_true]
  intro c hc
  rcases b64encode_mem bs c hc with hm | he
  · simp only [decide_eq_true_eq]
    exact b64_ascii_char c hm
  · subst he
    decide

theorem a2bBase64Go_encode_aux (n : Nat) :
    ∀ (bs acc : List Nat), bs.length ≤ n → (∀ x ∈ bs, x < 256) →
      a2bBase64Go (b64encode bs) 0 0 0 acc = .ok (acc ++ bs) := by
  induction n with
  | zero =>
    intro bs acc hl _
    have hnil : bs = [] := List.length_eq_zero.mp (Nat.le_zero.mp hl)
    subst hnil
    simp [b64encode, a2bBase64Go]
  | succ n ih =>
    intro bs acc hl hx
    rcases bs with _ | ⟨a, _ | ⟨b, _ | ⟨c, rest⟩⟩⟩
    · simp [b64encode, a2bBase64Go]
    · have ha : a < 256 := hx a (by simp)
      have hv0 := b64_val_char_lt (a / 4) (by omega)
      have hv1 := b64_val_char_lt (a % 4 * 16) (by omega)
      simp [b64encode, a2bBase64Go, hv0, hv1,
        b64ValToChar_ne_pad (a / 4), b64ValToChar_ne_pad (a % 4 * 16)]
      omega
    · have ha : a < 256 := hx a (by simp)
      have hb : b < 256 := hx b (by simp)
      have hv0 := b64_val_char_lt (a / 4) (by omega)
      have hv1 := b64_val_char_lt (a % 4 * 16 + b / 16) (by omega)
      have hv2 := b64_val_char_lt (b % 16 * 4) (by omega)
      simp [b64encode, a2bBase64Go, hv0, hv1, hv2,
        b64ValToChar_ne_pad (a / 4), b64ValToChar_ne_pad (a % 4 * 16 + b / 16),
        b64ValToChar_ne_pad (b % 16 * 4)]
      omega
    · have ha : a < 256 := hx a (by simp)
      have hb : b < 256 := hx b (by simp)
      have hc : c < 256 := hx c (by simp)
      have hv0 := b64_val_char_lt (a / 4) (by omega)
      have hv1 := b64_val_char_lt (a % 4 * 16 + b / 16) (by omega)
      have hv2 := b64_val_char_lt (b % 16 * 4 + c / 64) (by omega)
      have hv3 := b64_val_char_lt (c % 64) (by omega)
      have he0 : a / 4 * 4 + (a % 4 * 16 + b / 16) / 16 = a := by omega
      have he1 : (a % 4 * 16 + b / 16) % 16 * 16 + (b % 16 * 4 + c / 64) / 4 = b := by
        omega
      have he2 : (b % 16 * 4 + c / 64) % 4 * 64 + c % 64 = c := by omega
      have hrest := ih rest (acc ++ [a, b, c])
        (by simp only [List.length_cons] at hl; omega)
        (fun x hxm => hx x (by simp [hxm]))
      simp [b64encode, a2bBase64Go, hv0, hv1, hv2, hv3, he0, he1, he2, hrest,
        b64ValToChar_ne_pad (a / 4), b64ValToChar_ne_pad (a % 4 * 16 + b / 16),
        b64ValToChar_ne_pad (b % 16 * 4 + c / 64), b64ValToChar_ne_pad (c % 64)]

theorem b64decode_encode (bs : List Nat) (h : ∀ x ∈ bs, x < 256) :
    b64decode (b64encode bs) = .ok bs := by
  unfold b64decode
  rw [if_pos (b64encode_ascii bs)]
  simpa using a2bBase64Go_encode_aux bs.length bs [] le_rfl h

/-! ## Restorer processing lemmas -/

/-- True when the Frame Parser recognises the (already rstripped) line as
any of the three marker shapes. -/
def isMarkerLine (lr : Str) : Bool :=
  (parse_begin_file_line lr).1.isSome || (parse_empty_dir_line lr).isSome
    || (parse_end_file_line lr).1.isSome

theorem endsNL_false_of_noNL (s : Str) (h : noNL s = true) : endsNL s = false := by
  unfold endsNL
  cases hl : s.getLast? with
  | none => rfl
  | some c =>
    have hm : c ∈ s := List.mem_of_getLast?_eq_some hl
    unfold noNL at h
    rw [List.all_eq_true] at h
    have := h c hm
    simpa using this

theorem isMarkerLine_false_of_head_ne (s : Str)
    (h : ∀ d, s.head? = some d → d ≠ '-') : isMarkerLine s = false := by
  have htake : ∀ (a : Str), a.take 1 = ['-'] → ¬ a.take 1 = s.take 1 := by
    intro a ha hcontra
    rcases s with _ | ⟨d, t⟩
    · rw [ha] at hcontra
      simp at hcontra
    · have hd := h d rfl
      rw [ha] at hcontra
      simp [List.take] at hcontra
      exact hd hcontra.symm
  unfold isMarkerLine
  rw [parse_begin_isSome, parse_empty_dir_isSome, parse_end_isSome]
  rw [isPrefixOf_false_of_take_ne BEGIN_FILE_PRE s 1 (by decide) (htake _ (by decide)),
      isPrefixOf_false_of_take_ne EMPTY_DIR_PRE s 1 (by decide) (htake _ (by decide)),
      isPrefixOf_false_of_take_ne END_FILE_PRE s 1 (by decide) (htake _ (by decide))]
  rfl

theorem b64_line_not_marker (bs : List Nat) :
    isMarkerLine (rstripNewlines (b64encode bs ++ ['\n'])) = false := by
  rw [rstripNewlines_append_nl, rstripNewlines_eq_self _
      (endsNL_false_of_noNL _ (b64encode_noNL bs))]
  apply isMarkerLine_false_of_head_ne
  intro d hd
  have hm : d ∈ b64encode bs := by
    rcases he : b64encode bs with _ | ⟨x, t⟩
    · rw [he] at hd
      simp at hd
    · rw [he] at hd
      simp at hd
      subst hd
      simp
  rcases b64encode_mem bs d hm with hmem | heq
  · exact (alphabet_char_props d hmem).2.2.2.1
  · subst heq
    decide

/-! Single-step lemmas for the Pass-2 loop. -/

theorem processLine_begin (st : RState) (line : Str) (p : Str) (bin : Bool)
    (h : parse_begin_file_line (rstripNewlines line) = (some p, bin))
    (hf : (flushCurrent st).2.2 = false) :
    processLine st line
      = ((flushCurrent st).1 ++ [.openFile p bin], (flushCurrent st).2.1,
         { current := some (p, bin), buffer := [] }, false) := by
  unfold processLine
  rw [h]
  simp only [hf, Bool.false_eq_true, if_false]

theorem processLine_empty_dir (st : RState) (line : Str) (p : Str)
    (h1 : parse_begin_file_line (rstripNewlines line) = (none, false))
    (h2 : parse_empty_dir_line (rstripNewlines line) = some p)
    (hf : (flushCurrent st).2.2 = false) :
    processLine st line
      = ((flushCurrent st).1 ++ [.mkdir p], (flushCurrent st).2.1,
         { current := none, buffer := [] }, false) := by
  unfold processLine
  rw [h1, h2]
  simp only [hf, Bool.false_eq_true, if_false]

theorem processLine_end_open (cp : Str) (cb : Bool) (buf : List Str) (line : Str)
    (p : Str) (bin : Bool)
    (h1 : parse_begin_file_line (rstripNewlines line) = (none, false))
    (h2 : parse_empty_dir_line (rstripNewlines line) = none)
    (h3 : parse_end_file_line (rstripNewlines line) = (some p, bin))
    (hw : (writeBufferedContent cp cb buf).2.2 = false) :
    processLine { current := some (cp, cb), buffer := buf } line
      = ((writeBufferedContent cp cb buf).1,
         (writeBufferedContent cp cb buf).2.1
           ++ (if p ≠ cp ∨ bin ≠ cb then [.endMismatch p bin cp cb] else []),
         { current := none, buffer := [] }, false) := by
  unfold processLine
  rw [h1, h2, h3]
  simp only [hw, Bool.false_eq_true, if_false]

theorem parse_begin_none_snd (line : Str) (h : (parse_begin_file_line line).1 = none) :
    parse_begin_file_line line = (none, false) := by
  unfold parse_begin_file_line at h ⊢
  by_cases hc : (BEGIN_FILE_PRE.isPrefixOf line && BEGIN_FILE_SUFFIX.isSuffixOf line) = true
  · rw [if_pos hc] at h
    split at h <;> simp at h
  · rw [if_neg hc]

theorem parse_end_none_snd (line : Str) (h : (parse_end_file_line line).1 = none) :
    parse_end_file_line line = (none, false) := by
  unfold parse_end_file_line at h ⊢
  by_cases hc : (END_FILE_PRE.isPrefixOf line && END_FILE_SUFFIX.isSuffixOf line) = true
  · rw [if_pos hc] at h
    split at h <;> simp at h
  · rw [if_neg hc]

theorem isMarkerLine_false_elim (lr : Str) (h : isMarkerLine lr = false) :
    parse_begin_file_line lr = (none, false) ∧ parse_empty_dir_line lr = none
      ∧ parse_end_file_line lr = (none, false) := by
  unfold isMarkerLine at h
  simp only [Bool.or_eq_false_iff] at h
  obtain ⟨⟨hb, he⟩, hn⟩ := h
  refine ⟨parse_begin_none_snd lr ?_, ?_, parse_end_none_snd lr ?_⟩
  · rcases hx : (parse_begin_file_line lr).1 with _ | q
    · rfl
    · rw [hx] at hb
      simp at hb
  · rcases hx : parse_empty_dir_line lr with _ | q
    · rfl
    · rw [hx] at he
      simp at he
  · rcases hx : (parse_end_file_line lr).1 with _ | q
    · rfl
    · rw [hx] at hn
      simp at hn

theorem processLine_content (st : RState) (line : Str)
    (h : isMarkerLine (rstripNewlines line) = false) :
    processLine st line = ([], [],
      (match st.current with
       | some _ => { st with buffer := st.buffer ++ [line] }
       | none => st), false) := by
  obtain ⟨h1, h2, h3⟩ := isMarkerLine_false_elim _ h
  unfold processLine
  rw [h1, h2, h3]
  rcases st with ⟨cur, buf⟩
  rcases cur with _ | pf <;> rfl

theorem processLines_nil (st : RState) : processLines st [] = ([], [], st, false) := rfl

theorem processLines_cons (st : RState) (l : Str) (rest : List Str)
    (h : (processLine st l).2.2.2 = false) :
    processLines st (l :: rest)
      = ((processLine st l).1 ++ (processLines (processLine st l).2.2.1 rest).1,
         (processLine st l).2.1 ++ (processLines (processLine st l).2.2.1 rest).2.1,
         (processLines (processLine st l).2.2.1 rest).2.2.1,
         (processLines (processLine st l).2.2.1 rest).2.2.2) := by
  have hdef : processLines st (l :: rest)
      = if (processLine st l).2.2.2 then processLine st l
        else
          ((processLine st l).1 ++ (processLines (processLine st l).2.2.1 rest).1,
           (processLine st l).2.1 ++ (processLines (processLine st l).2.2.1 rest).2.1,
           (processLines (processLine st l).2.2.1 rest).2.2.1,
           (processLines (processLine st l).2.2.1 rest).2.2.2) := rfl
  rw [hdef, if_neg (by simp [h])]

theorem processLines_cons_abort (st : RState) (l : Str) (rest : List Str)
    (h : (processLine st l).2.2.2 = true) :
    processLines st (l :: rest) = processLine st l := by
  have hdef : processLines st (l :: rest)
      = if (processLine st l).2.2.2 then processLine st l
        else
          ((processLine st l).1 ++ (processLines (processLine st l).2.2.1 rest).1,
           (processLine st l).2.1 ++ (processLines (processLine st l).2.2.1 rest).2.1,
           (processLines (processLine st l).2.2.1 rest).2.2.1,
           (processLines (processLine st l).2.2.1 rest).2.2.2) := rfl
  rw [hdef, if_pos h]

theorem processLines_append_of (xs : List Str) :
    ∀ (st : RState) (ys : List Str) (ops : List WOp) (warns : List RWarn) (st2 : RState),
      processLines st xs = (ops, warns, st2, false) →
      processLines st (xs ++ ys)
        = (ops ++ (processLines st2 ys).1, warns ++ (processLines st2 ys).2.1,
           (processLines st2 ys).2.2.1, (processLines st2 ys).2.2.2) := by
  induction xs with
  | nil =>
    intro st ys ops warns st2 h
    rw [processLines_nil] at h
    simp only [Prod.mk.injEq] at h
    obtain ⟨rfl, rfl, rfl, -⟩ := h
    simp
  | cons l tail ih =>
    intro st ys ops warns st2 h
    cases hab : (processLine st l).2.2.2 with
    | true =>
      rw [processLines_cons_abort _ _ _ hab] at h
      rw [h] at hab
      simp at hab
    | false =>
      rcases hr : processLines (processLine st l).2.2.1 tail with ⟨o2, w2, stf, ab2⟩
      rw [processLines_cons _ _ _ hab, hr] at h
      simp only [Prod.mk.injEq] at h
      obtain ⟨rfl, rfl, rfl, rfl⟩ := h
      rw [List.cons_append, processLines_cons _ _ _ hab,
          ih (processLine st l).2.2.1 ys o2 w2 stf hr]
      simp [List.append_assoc]

theorem processLines_append_abort (xs : List Str) :
    ∀ (st : RState) (ys : List Str) (ops : List WOp) (warns : List RWarn) (st2 : RState),
      processLines st xs = (ops, warns, st2, true) →
      processLines st (xs ++ ys) = (ops, warns, st2, true) := by
  induction xs with
  | nil =>
    intro st ys ops warns st2 h
    rw [processLines_nil] at h
    simp only [Prod.mk.injEq] at h
    obtain ⟨-, -, -, h4⟩ := h
    simp at h4
  | cons l tail ih =>
    intro st ys ops warns st2 h
    cases hab : (processLine st l).2.2.2 with
    | true =>
      rw [processLines_cons_abort _ _ _ hab] at h
      rw [List.cons_append, processLines_cons_abort _ _ _ hab, h]
    | false =>
      rcases hr : processLines (processLine st l).2.2.1 tail with ⟨o2, w2, stf, ab2⟩
      rw [processLines_cons _ _ _ hab, hr] at h
      simp only [Prod.mk.injEq] at h
      obtain ⟨rfl, rfl, rfl, rfl⟩ := h
      rw [List.cons_append, processLines_cons _ _ _ hab,
          ih (processLine st l).2.2.1 ys o2 w2 stf hr]

theorem processLines_buffering (ls : List Str)
    (h : ∀ l ∈ ls, isMarkerLine (rstripNewlines l) = false) :
    ∀ (cp : Str) (cb : Bool) (buf : List Str),
      processLines { current := some (cp, cb), buffer := buf } ls
        = ([], [], { current := some (cp, cb), buffer := buf ++ ls }, false) := by
  induction ls with
  | nil => intro cp cb buf; simp [processLines]
  | cons l rest ih =>
    intro cp cb buf
    have hl := h l (by simp)
    have hrest : ∀ x ∈ rest, isMarkerLine (rstripNewlines x) = false := by
      intro x hx
      exact h x (by simp [hx])
    rw [processLines_cons _ _ _ (by rw [processLine_content _ _ hl]),
        processLine_content _ _ hl]
    simp only []
    rw [ih hrest cp cb (buf ++ [l])]
    simp

/-! The flush of a complete text-file body restores the original bytes. -/

theorem flatten_buffer_text (p : Str) (content : List Nat)
    (hvalid : validUtf8 content = true)
    (hsingle : endsNL (utf8Decode content) = true →
      endsNL (utf8Decode content).dropLast = true) :
    writeBufferedContent p false (splitLines (writeTextContent content))
      = ([.writeFile p content], [], false) := by
  have henc : utf8Encode (utf8Decode content) = content := by
    unfold validUtf8 at hvalid
    simpa using hvalid
  have hkey : utf8Encode (stripFlattenerNewline (writeTextContent content)) = content := by
    unfold writeTextContent
    cases hc : content.getLast? == some 10 with
    | false =>
      simp only [Bool.false_eq_true, if_false]
      have hnotnl : endsNL (utf8Decode content) = false := by
        cases hd : endsNL (utf8Decode content)
        · rfl
        · exfalso
          unfold endsNL at hd
          have h10 : content.getLast? = some 10 := by
            rw [← henc, utf8Encode_getLast_nl]
            simpa using hd
          rw [h10] at hc
          simp at hc
      rw [stripFlattenerNewline_append_nl _ hnotnl]
      exact henc
    | true =>
      simp only [if_true, List.append_nil]
      have h10 : content.getLast? = some 10 := by simpa using hc
      have hdnl : endsNL (utf8Decode content) = true := by
        unfold endsNL
        have h2 := (utf8Encode_getLast_nl (utf8Decode content)).mp (by rw [henc]; exact h10)
        simp [h2]
      rw [stripFlattenerNewline_double_nl _ hdnl (hsingle hdnl)]
      exact henc
  have hne : splitLines (writeTextContent content) ≠ [] := by
    rw [Ne, splitLines_eq_nil_iff]
    unfold writeTextContent
    cases hc : content.getLast? == some 10 with
    | false => simp
    | true =>
      simp only [if_true, List.append_nil]
      intro hdec
      rw [hdec] at henc
      simp [utf8Encode] at henc
      simp [henc] at hc
  unfold writeBufferedContent
  rw [if_neg (by simpa [List.isEmpty_iff] using hne)]
  simp only [Bool.false_eq_true, if_false]
  rw [splitLines_flatten, hkey]

/-! The flush of a complete binary-file body restores the original bytes. -/

theorem flatten_buffer_bin (p : Str) (content : List Nat)
    (hbytes : ∀ x ∈ content, x < 256) :
    writeBufferedContent p true (splitLines (writeBinaryContent content))
      = ([.writeFile p content], [], false) := by
  unfold writeBinaryContent
  rw [splitLines_single _ (b64encode_noNL content)]
  unfold writeBufferedContent
  rw [if_neg (by simp)]
  simp only [if_true, List.headD_cons]
  rw [rstripNewlines_append_nl, rstripNewlines_eq_self _
      (endsNL_false_of_noNL _ (b64encode_noNL content))]
  rw [b64decode_encode content hbytes]

/-! ## Specification-side definitions for the round-trip claims -/

/-- The writes that materialise exactly the given traversal items: each
empty directory is created, and each file is created and filled with its
original bytes. This is the specification side of the round-trip claims. -/
def expectedWrites (items : List (Str × FSTree)) : List WOp :=
  items.flatMap fun it =>
    match it with
    | (p, .dir cs) => if cs.isEmpty then [.mkdir p] else []
    | (p, .file c) => [.openFile p (is_binary c), .writeFile p c]

/-- No line of the flattened text body is itself a marker line (the format
has no escaping, see spec section 9; round-tripping needs this). -/
def contentLinesOk (content : List Nat) : Bool :=
  (splitLines (writeTextContent content)).all
    (fun l => !(isMarkerLine (rstripNewlines l)))

/-- The decoded text does not end with exactly one newline (the restorer's
trailing-newline heuristic is lossy exactly there). -/
def noSingleTrailingNL (content : List Nat) : Bool :=
  !(endsNL (utf8Decode content)) || endsNL (utf8Decode content).dropLast

/-- A relative path that survives the line format: no newline or carriage
return, and it does not end in the literal binary marker. -/
def pathOk (p : Str) : Bool :=
  noNL p && noCR p && !(BINARY_MARKER.isSuffixOf p)

/-- A text file whose bytes the flatten/restore pipeline reproduces. -/
def textFileOk (content : List Nat) : Bool :=
  !(is_binary content) && validUtf8 content && noCR (utf8Decode content)
    && noSingleTrailingNL content && contentLinesOk content

/-- Per-item safety for the text round-trip. -/
def itemOk : Str × FSTree → Bool
  | (p, .dir _) => noNL p && noCR p
  | (p, .file c) => pathOk p && textFileOk c

/-- Tree-wide safety for the text round-trip. -/
def textTreeOk (root : List (Str × FSTree)) : Bool :=
  (collectItems [] root).all itemOk

/-! ## Frame lemmas -/

theorem rstrip_line (x : Str) (hx : endsNL x = false) :
    rstripNewlines (x ++ ['\n']) = x := by
  rw [rstripNewlines_append_nl, rstripNewlines_eq_self x hx]

theorem endsNL_marker_body (x : Str) :
    endsNL (x ++ BEGIN_FILE_SUFFIX) = false :=
  endsNL_append_marker x BEGIN_FILE_SUFFIX (by decide) (by decide)

theorem noNL_append (a b : Str) : noNL (a ++ b) = (noNL a && noNL b) := by
  simp [noNL, List.all_append]

theorem noCR_append (a b : Str) : noCR (a ++ b) = (noCR a && noCR b) := by
  simp [noCR, List.all_append]

theorem endsNL_writeTextContent (content : List Nat) :
    endsNL (writeTextContent content) = true := by
  unfold writeTextContent
  cases hc : content.getLast? == some 10 with
  | false =>
    simp only [Bool.false_eq_true, if_false]
    simp [endsNL, List.getLast?_concat]
  | true =>
    simp only [if_true, List.append_nil]
    exact utf8Decode_ends_nl content (by simpa using hc)

/-- Processing one well-formed text-file frame from the clean state:
create+open the file, then at the END marker write back the original
bytes, leaving the clean state and no warnings. -/
theorem process_file_frame_text (p : Str) (content : List Nat)
    (hpath : pathOk p = true) (hfile : textFileOk content = true) :
    processLines initState (splitLines (renderItem (p, .file content)))
      = ([.openFile p false, .writeFile p content], [], initState, false) := by
  obtain ⟨⟨⟨hp1, hp2⟩, hp3⟩⟩ : ((noNL p = true ∧ noCR p = true)
      ∧ (BINARY_MARKER.isSuffixOf p) = false) ∧ True := by
    unfold pathOk at hpath
    simp only [Bool.and_eq_true] at hpath
    refine ⟨⟨⟨hpath.1.1, hpath.1.2⟩, ?_⟩, trivial⟩
    simpa using hpath.2
  have hbin : is_binary content = false := by
    unfold textFileOk at hfile
    simp only [Bool.and_eq_true] at hfile
    simpa using hfile.1.1.1.1
  have hvalid : validUtf8 content = true := by
    unfold textFileOk at hfile
    simp only [Bool.and_eq_true] at hfile
    exact hfile.1.1.1.2
  have hsingle : endsNL (utf8Decode content) = true →
      endsNL (utf8Decode content).dropLast = true := by
    unfold textFileOk at hfile
    simp only [Bool.and_eq_true] at hfile
    have := hfile.1.2
    unfold noSingleTrailingNL at this
    intro hx
    rcases Bool.or_eq_true_iff.mp this with hcase | hcase
    · rw [hx] at hcase
      simp at hcase
    · exact hcase
  have hlines : ∀ l ∈ splitLines (writeTextContent content),
      isMarkerLine (rstripNewlines l) = false := by
    unfold textFileOk at hfile
    simp only [Bool.and_eq_true] at hfile
    have := hfile.2
    unfold contentLinesOk at this
    rw [List.all_eq_true] at this
    intro l hl
    have h2 := this l hl
    simpa using h2
  have hrender : renderItem (p, .file content)
      = ((BEGIN_FILE_PRE ++ p ++ BEGIN_FILE_SUFFIX) ++ ['\n'])
        ++ (writeTextContent content
        ++ ((END_FILE_PRE ++ p ++ END_FILE_SUFFIX) ++ ['\n'])) := by
    simp only [renderItem, hbin, Bool.false_eq_true, if_false, List.append_nil]
    simp
  have hnlbody : noNL (BEGIN_FILE_PRE ++ p ++ BEGIN_FILE_SUFFIX) = true := by
    rw [noNL_append, noNL_append]
    simp only [Bool.and_eq_true]
    exact ⟨⟨by decide, hp1⟩, by decide⟩
  have hnlbody2 : noNL (END_FILE_PRE ++ p ++ END_FILE_SUFFIX) = true := by
    rw [noNL_append, noNL_append]
    simp only [Bool.and_eq_true]
    exact ⟨⟨by decide, hp1⟩, by decide⟩
  have hsplit : splitLines (renderItem (p, .file content))
      = ((BEGIN_FILE_PRE ++ p ++ BEGIN_FILE_SUFFIX) ++ ['\n'])
        :: (splitLines (writeTextContent content)
          ++ [(END_FILE_PRE ++ p ++ END_FILE_SUFFIX) ++ ['\n']]) := by
    rw [hrender, splitLines_append _ _ (by simp [endsNL, List.getLast?_concat]),
        splitLines_append _ _ (endsNL_writeTextContent content),
        splitLines_single _ hnlbody, splitLines_single _ hnlbody2]
    simp
  have hbeginparse : parse_begin_file_line
      (rstripNewlines ((BEGIN_FILE_PRE ++ p ++ BEGIN_FILE_SUFFIX) ++ ['\n']))
        = (some p, false) := by
    rw [rstrip_line _ (endsNL_marker_body _)]
    exact parse_begin_marker_text p hp3
  have hpl1 : processLine initState ((BEGIN_FILE_PRE ++ p ++ BEGIN_FILE_SUFFIX) ++ ['\n'])
      = ([.openFile p false], [],
         { current := some (p, false), buffer := [] }, false) := by
    rw [processLine_begin initState _ _ _ hbeginparse rfl]
    rfl
  rw [hsplit, processLines_cons _ _ _ (by rw [hpl1]), hpl1]
  simp only []
  rw [processLines_append_of _ _ _ _ _ _ (processLines_buffering _ hlines p false [])]
  simp only [List.nil_append, List.append_nil]
  have hendrstrip : rstripNewlines ((END_FILE_PRE ++ p ++ END_FILE_SUFFIX) ++ ['\n'])
      = END_FILE_PRE ++ (p ++ END_FILE_SUFFIX) := by
    rw [rstrip_line _ (endsNL_append_marker _ _ (by decide) (by decide))]
    simp
  have hbegin2 : parse_begin_file_line
      (rstripNewlines ((END_FILE_PRE ++ p ++ END_FILE_SUFFIX) ++ ['\n']))
        = (none, false) := by
    rw [hendrstrip]
    exact parse_begin_of_end_line (p ++ END_FILE_SUFFIX)
  have hempty2 : parse_empty_dir_line
      (rstripNewlines ((END_FILE_PRE ++ p ++ END_FILE_SUFFIX) ++ ['\n'])) = none := by
    rw [hendrstrip]
    exact parse_empty_dir_of_end_line (p ++ END_FILE_SUFFIX)
  have hend2 : parse_end_file_line
      (rstripNewlines ((END_FILE_PRE ++ p ++ END_FILE_SUFFIX) ++ ['\n']))
        = (some p, false) := by
    rw [hendrstrip, ← List.append_assoc]
    exact parse_end_marker_text p hp3
  have hwflush := flatten_buffer_text p content hvalid hsingle
  have hpl2 : processLine
        (⟨some (p, false), splitLines (writeTextContent content)⟩ : RState)
        ((END_FILE_PRE ++ p ++ END_FILE_SUFFIX) ++ ['\n'])
      = ([.writeFile p content], [], { current := none, buffer := [] }, false) := by
    rw [processLine_end_open _ _ _ _ _ _ hbegin2 hempty2 hend2 (by rw [hwflush]),
        hwflush]
    simp
  rw [processLines_cons _ _ _ (by rw [hpl2]), hpl2, processLines_nil]
  simp [initState]

/-- Processing one well-formed binary-file frame from the clean state. -/
theorem process_file_frame_bin (p : Str) (content : List Nat)
    (hp1 : noNL p = true) (hbin : is_binary content = true)
    (hbytes : ∀ x ∈ content, x < 256) :
    processLines initState (splitLines (renderItem (p, .file content)))
      = ([.openFile p true, .writeFile p content], [], initState, false) := by
  have hrender : renderItem (p, .file content)
      = ((BEGIN_FILE_PRE ++ (p ++ BINARY_MARKER) ++ BEGIN_FILE_SUFFIX) ++ ['\n'])
        ++ ((b64encode content ++ ['\n'])
        ++ ((END_FILE_PRE ++ (p ++ BINARY_MARKER) ++ END_FILE_SUFFIX) ++ ['\n'])) := by
    simp only [renderItem, hbin, if_true]
    unfold writeBinaryContent
    simp
  have hnlbody : noNL (BEGIN_FILE_PRE ++ (p ++ BINARY_MARKER) ++ BEGIN_FILE_SUFFIX)
      = true := by
    rw [noNL_append, noNL_append, noNL_append]
    simp only [Bool.and_eq_true]
    exact ⟨⟨by decide, hp1, by decide⟩, by decide⟩
  have hnlbody2 : noNL (END_FILE_PRE ++ (p ++ BINARY_MARKER) ++ END_FILE_SUFFIX)
      = true := by
    rw [noNL_append, noNL_append, noNL_append]
    simp only [Bool.and_eq_true]
    exact ⟨⟨by decide, hp1, by decide⟩, by decide⟩
  have hsplit : splitLines (renderItem (p, .file content))
      = ((BEGIN_FILE_PRE ++ (p ++ BINARY_MARKER) ++ BEGIN_FILE_SUFFIX) ++ ['\n'])
        :: ((b64encode content ++ ['\n'])
          :: [(END_FILE_PRE ++ (p ++ BINARY_MARKER) ++ END_FILE_SUFFIX) ++ ['\n']]) := by
    rw [hrender,
        splitLines_append ((BEGIN_FILE_PRE ++ (p ++ BINARY_MARKER) ++ BEGIN_FILE_SUFFIX)
          ++ ['\n']) _ (by simp [endsNL, List.getLast?_concat]),
        splitLines_append (b64encode content ++ ['\n']) _
          (by simp [endsNL, List.getLast?_concat]),
        splitLines_single _ hnlbody, splitLines_single _ hnlbody2,
        splitLines_single _ (b64encode_noNL content)]
    simp
  have hbeginparse : parse_begin_file_line
      (rstripNewlines ((BEGIN_FILE_PRE ++ (p ++ BINARY_MARKER) ++ BEGIN_FILE_SUFFIX)
        ++ ['\n'])) = (some p, true) := by
    rw [rstrip_line _ (endsNL_marker_body _)]
    exact parse_begin_marker_bin p
  have hpl1 : processLine initState
        ((BEGIN_FILE_PRE ++ (p ++ BINARY_MARKER) ++ BEGIN_FILE_SUFFIX) ++ ['\n'])
      = ([.openFile p true], [],
         { current := some (p, true), buffer := [] }, false) := by
    rw [processLine_begin initState _ _ _ hbeginparse rfl]
    rfl
  have hpl2 : processLine { current := some (p, true), buffer := [] }
        (b64encode content ++ ['\n'])
      = ([], [],
         (⟨some (p, true), [b64encode content ++ ['\n']]⟩ : RState), false) := by
    rw [processLine_content _ _ (b64_line_not_marker content)]
    rfl
  have hendrstrip : rstripNewlines ((END_FILE_PRE ++ (p ++ BINARY_MARKER)
      ++ END_FILE_SUFFIX) ++ ['\n'])
      = END_FILE_PRE ++ ((p ++ BINARY_MARKER) ++ END_FILE_SUFFIX) := by
    rw [rstrip_line _ (endsNL_append_marker _ _ (by decide) (by decide))]
    simp
  have hbegin2 : parse_begin_file_line
      (rstripNewlines ((END_FILE_PRE ++ (p ++ BINARY_MARKER) ++ END_FILE_SUFFIX)
        ++ ['\n'])) = (none, false) := by
    rw [hendrstrip]
    exact parse_begin_of_end_line _
  have hempty2 : parse_empty_dir_line
      (rstripNewlines ((END_FILE_PRE ++ (p ++ BINARY_MARKER) ++ END_FILE_SUFFIX)
        ++ ['\n'])) = none := by
    rw [hendrstrip]
    exact parse_empty_dir_of_end_line _
  have hend2 : parse_end_file_line
      (rstripNewlines ((END_FILE_PRE ++ (p ++ BINARY_MARKER) ++ END_FILE_SUFFIX)
        ++ ['\n'])) = (some p, true) := by
    rw [hendrstrip, ← List.append_assoc]
    exact parse_end_marker_bin p
  have hflush : writeBufferedContent p true [b64encode content ++ ['\n']]
      = ([.writeFile p content], [], false) := by
    have h0 := flatten_buffer_bin p content hbytes
    unfold writeBinaryContent at h0
    rw [splitLines_single _ (b64encode_noNL content)] at h0
    exact h0
  have hpl3 : processLine
        (⟨some (p, true), [b64encode content ++ ['\n']]⟩ : RState)
        ((END_FILE_PRE ++ (p ++ BINARY_MARKER) ++ END_FILE_SUFFIX) ++ ['\n'])
      = ([.writeFile p content], [], { current := none, buffer := [] }, false) := by
    rw [processLine_end_open _ _ _ _ _ _ hbegin2 hempty2 hend2 (by rw [hflush]),
        hflush]
    simp
  rw [hsplit, processLines_cons _ _ _ (by rw [hpl1]), hpl1]
  simp only []
  rw [processLines_cons _ _ _ (by rw [hpl2]), hpl2]
  simp only []
  rw [processLines_cons _ _ _ (by rw [hpl3]), hpl3, processLines_nil]
  simp [initState]

/-- Processing one EMPTY DIR frame (or a non-empty directory's empty
contribution) from the clean state. -/
theorem process_dir_frame (p : Str) (cs : List (Str × FSTree)) (hp1 : noNL p = true) :
    processLines initState (splitLines (renderItem (p, .dir cs)))
      = ((if cs.isEmpty then [.mkdir p] else []), [], initState, false) := by
  cases hcs : cs.isEmpty with
  | false =>
    simp only [renderItem, hcs, Bool.false_eq_true, if_false]
    rfl
  | true =>
    simp only [renderItem, hcs, if_true]
    have hbody : noNL (EMPTY_DIR_PRE ++ p ++ EMPTY_DIR_SUFFIX) = true := by
      rw [noNL_append, noNL_append]
      simp only [Bool.and_eq_true]
      exact ⟨⟨by decide, hp1⟩, by decide⟩
    have hsplit : splitLines (EMPTY_DIR_PRE ++ p ++ EMPTY_DIR_SUFFIX ++ ['\n'])
        = [(EMPTY_DIR_PRE ++ p ++ EMPTY_DIR_SUFFIX) ++ ['\n']] := by
      rw [← splitLines_single _ hbody]
    have hrs : rstripNewlines ((EMPTY_DIR_PRE ++ p ++ EMPTY_DIR_SUFFIX) ++ ['\n'])
        = EMPTY_DIR_PRE ++ (p ++ EMPTY_DIR_SUFFIX) := by
      rw [rstrip_line _ (endsNL_append_marker _ _ (by decide) (by decide))]
      simp
    have hb : parse_begin_file_line
        (rstripNewlines ((EMPTY_DIR_PRE ++ p ++ EMPTY_DIR_SUFFIX) ++ ['\n']))
          = (none, false) := by
      rw [hrs]
      exact parse_begin_of_empty_dir_line _
    have he : parse_empty_dir_line
        (rstripNewlines ((EMPTY_DIR_PRE ++ p ++ EMPTY_DIR_SUFFIX) ++ ['\n']))
          = some p := by
      rw [hrs, ← List.append_assoc]
      exact parse_empty_dir_marker p
    have hpl : processLine initState ((EMPTY_DIR_PRE ++ p ++ EMPTY_DIR_SUFFIX) ++ ['\n'])
        = ([.mkdir p], [], { current := none, buffer := [] }, false) := by
      rw [processLine_empty_dir initState _ _ hb he rfl]
      rfl
    rw [hsplit, processLines_cons _ _ _ (by rw [hpl]), hpl, processLines_nil]
    simp [initState]

/-- Every record chunk is empty or newline-terminated. -/
theorem renderItem_nil_or_endsNL (it : Str × FSTree) :
    renderItem it = [] ∨ endsNL (renderItem it) = true := by
  obtain ⟨p, t⟩ := it
  cases t with
  | file c =>
    right
    unfold endsNL
    have hshape : renderItem (p, .file c)
        = ((BEGIN_FILE_PRE ++ p ++ (if is_binary c then BINARY_MARKER else [])
            ++ BEGIN_FILE_SUFFIX ++ ['\n'])
          ++ (if is_binary c then writeBinaryContent c else writeTextContent c)
          ++ (END_FILE_PRE ++ p ++ (if is_binary c then BINARY_MARKER else [])
            ++ END_FILE_SUFFIX)) ++ ['\n'] := by
      simp only [renderItem]
      simp [List.append_assoc]
    rw [hshape, List.getLast?_concat]
    rfl
  | dir cs =>
    cases hcs : cs.isEmpty with
    | false => left; simp [renderItem, hcs]
    | true =>
      right
      simp only [renderItem, hcs, if_true]
      simp [endsNL, List.getLast?_append, List.getLast?_concat]

/-- Splitting the whole archive splits each frame independently. -/
theorem splitLines_render_flatten (items : List (Str × FSTree)) :
    splitLines ((items.map renderItem).flatten)
      = (items.map (fun it => splitLines (renderItem it))).flatten := by
  induction items with
  | nil => simp [splitLines, splitLinesAux]
  | cons it rest ih =>
    simp only [List.map_cons, List.flatten_cons]
    rcases renderItem_nil_or_endsNL it with hnil | hnl
    · rw [hnil]
      simp only [List.nil_append]
      rw [ih]
      simp [splitLines, splitLinesAux, hnil]
    · rw [splitLines_append _ _ hnl, ih]

/-- Replaying every frame of a safe item list from the clean state yields
exactly the expected writes, no warnings, and the clean state again. -/
theorem process_items (items : List (Str × FSTree))
    (h : ∀ it ∈ items, itemOk it = true) :
    processLines initState ((items.map (fun it => splitLines (renderItem it))).flatten)
      = (expectedWrites items, [], initState, false) := by
  induction items with
  | nil => simp [expectedWrites, processLines]
  | cons it rest ih =>
    have hit := h it (by simp)
    have hrest : ∀ x ∈ rest, itemOk x = true := fun x hx => h x (by simp [hx])
    simp only [List.map_cons, List.flatten_cons]
    obtain ⟨p, t⟩ := it
    have hone : processLines initState (splitLines (renderItem (p, t)))
        = (expectedWrites [(p, t)], [], initState, false) := by
      cases t with
      | dir cs =>
        have hp1 : noNL p = true := by
          unfold itemOk at hit
          simp only [Bool.and_eq_true] at hit
          exact hit.1
        rw [process_dir_frame p cs hp1]
        simp [expectedWrites]
      | file c =>
        have hp : pathOk p = true := by
          unfold itemOk at hit
          simp only [Bool.and_eq_true] at hit
          exact hit.1
        have hc : textFileOk c = true := by
          unfold itemOk at hit
          simp only [Bool.and_eq_true] at hit
          exact hit.2
        have hbin : is_binary c = false := by
          unfold textFileOk at hc
          simp only [Bool.and_eq_true] at hc
          simpa using hc.1.1.1.1
        rw [process_file_frame_text p c hp hc]
        simp [expectedWrites, hbin]
    rw [processLines_append_of _ _ _ _ _ _ hone, ih hrest]
    simp only [expectedWrites, List.flatMap_cons, List.flatMap_nil, List.append_nil]

/-! ## Top-level assembly -/

theorem noCR_renderItem (it : Str × FSTree) (h : itemOk it = true) :
    noCR (renderItem it) = true := by
  obtain ⟨p, t⟩ := it
  cases t with
  | dir cs =>
    have hp : noCR p = true := by
      unfold itemOk at h
      simp only [Bool.and_eq_true] at h
      exact h.2
    cases hcs : cs.isEmpty with
    | false => simp [renderItem, hcs, noCR]
    | true =>
      simp only [renderItem, hcs, if_true]
      rw [noCR_append, noCR_append, noCR_append]
      simp only [Bool.and_eq_true]
      exact ⟨⟨⟨by decide, hp⟩, by decide⟩, by decide⟩
  | file c =>
    have hp : noCR p = true := by
      unfold itemOk pathOk at h
      simp only [Bool.and_eq_true] at h
      exact h.1.1.2
    have hbin : is_binary c = false := by
      unfold itemOk textFileOk at h
      simp only [Bool.and_eq_true] at h
      simpa using h.2.1.1.1.1
    have hdec : noCR (utf8Decode c) = true := by
      unfold itemOk textFileOk at h
      simp only [Bool.and_eq_true] at h
      exact h.2.1.1.2
    simp only [renderItem, hbin, Bool.false_eq_true, if_false, List.append_nil,
      writeTextContent]
    simp only [noCR_append, Bool.and_eq_true]
    repeat' apply And.intro
    all_goals first
      | exact hp
      | exact hdec
      | decide
      | (cases hx : c.getLast? == some 10 <;> simp [hx] <;> decide)

theorem noCR_flatten_items (items : List (Str × FSTree))
    (h : ∀ it ∈ items, itemOk it = true) :
    noCR ((items.map renderItem).flatten) = true := by
  induction items with
  | nil => decide
  | cons it rest ih =>
    simp only [List.map_cons, List.flatten_cons]
    rw [noCR_append]
    simp only [Bool.and_eq_true]
    exact ⟨noCR_renderItem it (h it (by simp)),
      ih (fun x hx => h x (by simp [hx]))⟩

theorem insertByLt_perm (lt : α → α → Bool) (x : α) (l : List α) :
    (insertByLt lt x l).Perm (x :: l) := by
  induction l with
  | nil => exact List.Perm.refl _
  | cons y ys ih =>
    show (if lt y x then y :: insertByLt lt x ys else x :: y :: ys).Perm (x :: y :: ys)
    by_cases h : lt y x = true
    · rw [if_pos h]
      exact (List.Perm.cons y ih).trans (List.Perm.swap x y ys)
    · rw [if_neg h]

theorem sortByLt_perm (lt : α → α → Bool) (l : List α) :
    (sortByLt lt l).Perm l := by
  induction l with
  | nil => exact List.Perm.refl _
  | cons x xs ih =>
    show (insertByLt lt x (sortByLt lt xs)).Perm (x :: xs)
    exact (insertByLt_perm lt x (sortByLt lt xs)).trans (List.Perm.cons x ih)

theorem checkConflicts_no_exist (lines : List Str) :
    checkConflicts lines (fun _ => false) = [] := by
  unfold checkConflicts
  induction lines with
  | nil => rfl
  | cons l rest ih =>
    simp only [List.filterMap_cons]
    cases hm : markerPath l with
    | none => simpa using ih
    | some p => simpa using ih

theorem processFileContents_of_clean (lines : List Str) (ops : List WOp)
    (warns : List RWarn)
    (h : processLines initState lines = (ops, warns, initState, false)) :
    processFileContents lines = (ops, warns, false) := by
  unfold processFileContents
  rw [h]
  rfl

/-- Claim C1 (amended): flatten-then-restore reproduces the tree, for trees
of text files whose paths carry no newline, carriage return, or trailing
binary-marker text, and whose contents are valid UTF-8, carry no carriage
return, contain no line that parses as a marker, and do not end in exactly
one newline: restoring into an empty destination performs exactly the
writes that recreate every file byte-for-byte and every empty directory,
with no warnings and no error. -/
theorem claim1_text_roundtrip_amended (root : List (Str × FSTree))
    (h : textTreeOk root = true) :
    restoreArchive (flattenArchive root) (fun _ => false)
      = (WOp.mkdirRoot :: expectedWrites (sortedItems root), [], none) := by
  have hitems : ∀ it ∈ sortedItems root, itemOk it = true := by
    intro it hit
    unfold textTreeOk at h
    rw [List.all_eq_true] at h
    apply h
    unfold sortedItems at hit
    exact (sortByLt_perm _ (collectItems [] root)).mem_iff.mp hit
  have harchive : flattenArchive root = ((sortedItems root).map renderItem).flatten :=
    rfl
  have hnoCR : noCR (flattenArchive root) = true := by
    rw [harchive]
    exact noCR_flatten_items _ hitems
  unfold restoreArchive
  rw [translateNewlines_eq_self _ hnoCR, harchive, splitLines_render_flatten,
      checkConflicts_no_exist]
  simp only [List.isEmpty_nil, if_true]
  rw [processFileContents_of_clean _ _ _ (process_items _ hitems)]
  rfl

/-- Witness for claim C1 at a concrete safe tree. -/
theorem claim1_text_roundtrip_amended_witness :
    restoreArchive
        (flattenArchive [(str "a", .dir [(str "empty", .dir []),
          (str "file.txt", .file [104, 105])])])
        (fun _ => false)
      = (WOp.mkdirRoot :: expectedWrites (sortedItems
          [(str "a", .dir [(str "empty", .dir []),
            (str "file.txt", .file [104, 105])])]), [], none) :=
  claim1_text_roundtrip_amended
    [(str "a", .dir [(str "empty", .dir []), (str "file.txt", .file [104, 105])])]
    (by
      have hc : collectItems []
          [(str "a", FSTree.dir [(str "empty", FSTree.dir []),
            (str "file.txt", FSTree.file [104, 105])])]
          = [(str "a", FSTree.dir [(str "empty", FSTree.dir []),
              (str "file.txt", FSTree.file [104, 105])]),
             (str "a/empty", FSTree.dir []),
             (str "a/file.txt", FSTree.file [104, 105])] := by
        simp [collectItems]
        decide
      unfold textTreeOk
      rw [hc]
      decide)

/-- Counterexample to claim C1 as stated: the tree with the single text
file "f" holding the bytes "hi\n" (no null byte anywhere, hence a text
file) restores to "hi" — the trailing newline is lost, so the restored
tree is not byte-identical. -/
theorem claim1_roundtrip_counterexample :
    is_binary [104, 105, 10] = false
    ∧ restoreArchive (flattenArchive [(str "f", .file [104, 105, 10])])
        (fun _ => false)
      = (WOp.mkdirRoot :: [.openFile (str "f") false, .writeFile (str "f") [104, 105]],
         [], none)
    ∧ expectedWrites (sortedItems [(str "f", .file [104, 105, 10])])
      ≠ [.openFile (str "f") false, .writeFile (str "f") [104, 105]] := by
  have hc : collectItems [] [(str "f", FSTree.file [104, 105, 10])]
      = [(str "f", FSTree.file [104, 105, 10])] := by
    simp [collectItems]
  refine ⟨by decide, ?_, ?_⟩
  · show restoreArchive (flattenArchive [(str "f", .file [104, 105, 10])])
        (fun _ => false)
      = (WOp.mkdirRoot :: [.openFile (str "f") false, .writeFile (str "f") [104, 105]],
         [], none)
    unfold flattenArchive sortedItems
    rw [hc]
    decide
  · show expectedWrites (sortedItems [(str "f", .file [104, 105, 10])])
      ≠ [.openFile (str "f") false, .writeFile (str "f") [104, 105]]
    unfold sortedItems
    rw [hc]
    decide

/-- Claim C4 (amended): flattening the tree
{"a/file.txt": "hi", "a/empty": emptydir} produces the archive with the
EMPTY DIR record first, because "a/empty" sorts before "a/file.txt". -/
theorem claim4_scenario_amended :
    flattenArchive [(str "a", .dir [(str "empty", .dir []),
        (str "file.txt", .file [104, 105])])]
      = str "--- EMPTY DIR: a/empty ---\n--- BEGIN FILE: a/file.txt ---\nhi\n--- END FILE: a/file.txt ---\n" := by
  have hc : collectItems []
      [(str "a", FSTree.dir [(str "empty", FSTree.dir []),
        (str "file.txt", FSTree.file [104, 105])])]
      = [(str "a", FSTree.dir [(str "empty", FSTree.dir []),
          (str "file.txt", FSTree.file [104, 105])]),
         (str "a/empty", FSTree.dir []),
         (str "a/file.txt", FSTree.file [104, 105])] := by
    simp [collectItems]
    decide
  unfold flattenArchive sortedItems
  rw [hc]
  decide

/-- Counterexample to claim C4 as stated: the archive does not equal the
claimed text in which the FILE record precedes the EMPTY DIR record. -/
theorem claim4_scenario_counterexample :
    flattenArchive [(str "a", .dir [(str "empty", .dir []),
        (str "file.txt", .file [104, 105])])]
      ≠ str "--- BEGIN FILE: a/file.txt ---\nhi\n--- END FILE: a/file.txt ---\n--- EMPTY DIR: a/empty ---\n" := by
  have hc : collectItems []
      [(str "a", FSTree.dir [(str "empty", FSTree.dir []),
        (str "file.txt", FSTree.file [104, 105])])]
      = [(str "a", FSTree.dir [(str "empty", FSTree.dir []),
          (str "file.txt", FSTree.file [104, 105])]),
         (str "a/empty", FSTree.dir []),
         (str "a/file.txt", FSTree.file [104, 105])] := by
    simp [collectItems]
    decide
  unfold flattenArchive sortedItems
  rw [hc]
  decide

/-- Claim C7: for a text (non-binary) file the flattener emits the
permissively decoded bytes and appends exactly one newline iff the raw
content does not end in a newline byte; content already ending in a
newline is emitted unchanged (no double newline), and the emitted body
always ends in a newline so the END marker starts its own line. -/
theorem claim7_text_newline (p : Str) (content : List Nat)
    (h : is_binary content = false) :
    renderItem (p, .file content)
        = (BEGIN_FILE_PRE ++ p ++ BEGIN_FILE_SUFFIX ++ ['\n'])
          ++ writeTextContent content
          ++ (END_FILE_PRE ++ p ++ END_FILE_SUFFIX ++ ['\n'])
    ∧ (content.getLast? = some 10 → writeTextContent content = utf8Decode content)
    ∧ (content.getLast? ≠ some 10 →
        writeTextContent content = utf8Decode content ++ ['\n'])
    ∧ endsNL (writeTextContent content) = true := by
  refine ⟨?_, ?_, ?_, endsNL_writeTextContent content⟩
  · simp only [renderItem, h, Bool.false_eq_true, if_false, List.append_nil]
  · intro h10
    unfold writeTextContent
    rw [h10]
    simp
  · intro h10
    unfold writeTextContent
    have : (content.getLast? == some 10) = false := by
      cases hx : content.getLast? == some 10
      · rfl
      · exact absurd (by simpa using hx) h10
    rw [this]
    simp

/-- Witness for claim C7 at the bytes "hi" (no trailing newline). -/
theorem claim7_text_newline_witness :
    renderItem (str "x", .file [104, 105])
        = (BEGIN_FILE_PRE ++ str "x" ++ BEGIN_FILE_SUFFIX ++ ['\n'])
          ++ writeTextContent [104, 105]
          ++ (END_FILE_PRE ++ str "x" ++ END_FILE_SUFFIX ++ ['\n'])
    ∧ (List.getLast? [104, 105] = some 10 →
        writeTextContent [104, 105] = utf8Decode [104, 105])
    ∧ (List.getLast? [104, 105] ≠ some 10 →
        writeTextContent [104, 105] = utf8Decode [104, 105] ++ ['\n'])
    ∧ endsNL (writeTextContent [104, 105]) = true :=
  claim7_text_newline (str "x") [104, 105] (by decide)

/-! ## Claim C2: the binary path round-trips -/

theorem collectItems_single_file (p : Str) (c : List Nat) :
    collectItems [] [(p, .file c)] = [(p, .file c)] := by
  simp [collectItems]

theorem sortedItems_single_file (p : Str) (c : List Nat) :
    sortedItems [(p, .file c)] = [(p, .file c)] := by
  unfold sortedItems
  rw [collectItems_single_file]
  rfl

theorem noCR_renderItem_bin (p : Str) (content : List Nat)
    (hp2 : noCR p = true) (hbin : is_binary content = true) :
    noCR (renderItem (p, .file content)) = true := by
  simp only [renderItem, hbin, if_true, writeBinaryContent]
  simp only [noCR_append, Bool.and_eq_true]
  repeat' apply And.intro
  all_goals first
    | exact hp2
    | exact b64encode_noCR content
    | decide

/-- Claim C2: a binary-classified file is emitted as exactly one base64
line (the encoding contains no newline), the restorer's binary flush
decodes that line back to exactly the original bytes, and the composition
restore-after-flatten on a single binary file reproduces the bytes. -/
theorem claim2_binary_roundtrip (p : Str) (content : List Nat)
    (hp1 : noNL p = true) (hp2 : noCR p = true)
    (hbin : is_binary content = true) (hbytes : ∀ x ∈ content, x < 256) :
    (renderItem (p, .file content)
        = ((BEGIN_FILE_PRE ++ (p ++ BINARY_MARKER) ++ BEGIN_FILE_SUFFIX) ++ ['\n'])
          ++ ((b64encode content ++ ['\n'])
          ++ ((END_FILE_PRE ++ (p ++ BINARY_MARKER) ++ END_FILE_SUFFIX) ++ ['\n'])))
    ∧ noNL (b64encode content) = true
    ∧ writeBufferedContent p true [b64encode content ++ ['\n']]
        = ([.writeFile p content], [], false)
    ∧ restoreArchive (flattenArchive [(p, .file content)]) (fun _ => false)
        = ([WOp.mkdirRoot, .openFile p true, .writeFile p content], [], none) := by
  have hrender : renderItem (p, .file content)
      = ((BEGIN_FILE_PRE ++ (p ++ BINARY_MARKER) ++ BEGIN_FILE_SUFFIX) ++ ['\n'])
        ++ ((b64encode content ++ ['\n'])
        ++ ((END_FILE_PRE ++ (p ++ BINARY_MARKER) ++ END_FILE_SUFFIX) ++ ['\n'])) := by
    simp only [renderItem, hbin, if_true]
    unfold writeBinaryContent
    simp
  have hflush : writeBufferedContent p true [b64encode content ++ ['\n']]
      = ([.writeFile p content], [], false) := by
    have := flatten_buffer_bin p content hbytes
    unfold writeBinaryContent at this
    rw [splitLines_single _ (b64encode_noNL content)] at this
    exact this
  refine ⟨hrender, b64encode_noNL content, hflush, ?_⟩
  have harch : flattenArchive [(p, .file content)]
      = renderItem (p, .file content) := by
    unfold flattenArchive
    rw [sortedItems_single_file]
    simp
  have hnoCR : noCR (flattenArchive [(p, .file content)]) = true := by
    rw [harch]
    exact noCR_renderItem_bin p content hp2 hbin
  unfold restoreArchive
  rw [translateNewlines_eq_self _ hnoCR, harch, checkConflicts_no_exist]
  simp only [List.isEmpty_nil, if_true]
  rw [processFileContents_of_clean _ _ _
      (process_file_frame_bin p content hp1 hbin hbytes)]
  rfl

/-- Witness for claim C2 on the bytes 0x00 0xFF 0x0A (the null byte makes
the file binary-classified). -/
theorem claim2_binary_roundtrip_witness :
    (renderItem (str "b", .file [0, 255, 10])
        = ((BEGIN_FILE_PRE ++ (str "b" ++ BINARY_MARKER) ++ BEGIN_FILE_SUFFIX) ++ ['\n'])
          ++ ((b64encode [0, 255, 10] ++ ['\n'])
          ++ ((END_FILE_PRE ++ (str "b" ++ BINARY_MARKER) ++ END_FILE_SUFFIX) ++ ['\n'])))
    ∧ noNL (b64encode [0, 255, 10]) = true
    ∧ writeBufferedContent (str "b") true [b64encode [0, 255, 10] ++ ['\n']]
        = ([.writeFile (str "b") [0, 255, 10]], [], false)
    ∧ restoreArchive (flattenArchive [(str "b", .file [0, 255, 10])]) (fun _ => false)
        = ([WOp.mkdirRoot, .openFile (str "b") true,
            .writeFile (str "b") [0, 255, 10]], [], none) :=
  claim2_binary_roundtrip (str "b") [0, 255, 10] (by decide) (by decide) (by decide)
    (by decide)

/-! ## Claim C3: conflict scan before any write -/

theorem mem_checkConflicts (lines : List Str) (existsAt : Str → Bool) (p : Str) :
    p ∈ checkConflicts lines existsAt
      ↔ ∃ l ∈ lines, markerPath l = some p ∧ existsAt p = true := by
  unfold checkConflicts
  rw [List.mem_filterMap]
  constructor
  · rintro ⟨l, hl, hf⟩
    refine ⟨l, hl, ?_⟩
    rcases hm : markerPath l with _ | q
    · rw [hm] at hf
      simp at hf
    · rw [hm] at hf
      have hf2 : (if existsAt q = true then some q else none) = some p := hf
      by_cases he : existsAt q = true
      · rw [if_pos he] at hf2
        simp only [Option.some.injEq] at hf2
        subst hf2
        exact ⟨rfl, he⟩
      · rw [if_neg he] at hf2
        simp at hf2
  · rintro ⟨l, hl, hm, he⟩
    refine ⟨l, hl, ?_⟩
    rw [hm]
    show (if existsAt p = true then some p else none) = some p
    rw [if_pos he]

/-- Claim C3: when any BEGIN FILE or EMPTY DIR marker of the archive names
a path that already exists under the destination root, restore fails with
the conflict error, performs zero filesystem writes (not even the
destination root mkdir), and the error lists exactly the marker paths
whose targets exist. -/
theorem claim3_conflicts_block_restore (archive : Str) (existsAt : Str → Bool)
    (h : ∃ l ∈ splitLines (translateNewlines archive), ∃ p,
        markerPath l = some p ∧ existsAt p = true) :
    ∃ conflicts : List Str,
      restoreArchive archive existsAt = ([], [], some (.pathConflict conflicts))
      ∧ ∀ p, p ∈ conflicts
          ↔ ∃ l ∈ splitLines (translateNewlines archive),
              markerPath l = some p ∧ existsAt p = true := by
  refine ⟨checkConflicts (splitLines (translateNewlines archive)) existsAt, ?_, ?_⟩
  · have hne : checkConflicts (splitLines (translateNewlines archive)) existsAt ≠ [] := by
      obtain ⟨l, hl, p, hm, he⟩ := h
      intro hnil
      have : p ∈ checkConflicts (splitLines (translateNewlines archive)) existsAt :=
        (mem_checkConflicts _ _ _).mpr ⟨l, hl, hm, he⟩
      rw [hnil] at this
      simp at this
    unfold restoreArchive
    rw [if_neg (by simpa [List.isEmpty_iff] using hne)]
  · intro p
    exact mem_checkConflicts _ _ p

/-- Witness for claim C3: an archive naming "x" restored where "x" already
exists. -/
theorem claim3_conflicts_block_restore_witness :
    ∃ conflicts : List Str,
      restoreArchive (str "--- BEGIN FILE: x ---\nhi\n--- END FILE: x ---\n")
          (fun q => q == str "x")
        = ([], [], some (.pathConflict conflicts))
      ∧ ∀ p, p ∈ conflicts
          ↔ ∃ l ∈ splitLines (translateNewlines
              (str "--- BEGIN FILE: x ---\nhi\n--- END FILE: x ---\n")),
              markerPath l = some p ∧ (fun q => q == str "x") p = true :=
  claim3_conflicts_block_restore (str "--- BEGIN FILE: x ---\nhi\n--- END FILE: x ---\n")
    (fun q => q == str "x")
    (by
      refine ⟨str "--- BEGIN FILE: x ---" ++ ['\n'], by decide, str "x", by decide,
        by decide⟩)

/-! ## Claim C6: where restore writes land (pathlib model)

`_handle_begin_file` and `_handle_empty_dir` compute `output_root / path_str`
with no sanitisation. POSIX `pathlib` semantics: parsing collapses double
slashes and single dots, keeps `..`; joining an absolute right operand
discards the root; the filesystem then resolves `..` against the parent
directory (symlink-free model). -/

/-- Split on `/` (keeping empty components for the parser to drop). -/
def splitSlashAux (acc : Str) : Str → List Str
  | [] => [acc]
  | c :: rest =>
    if c = '/' then acc :: splitSlashAux [] rest
    else splitSlashAux (acc ++ [c]) rest

/-- A parsed `pathlib.PurePosixPath`. -/
structure PyPath where
  absolute : Bool
  parts : List Str
deriving DecidableEq

/-- Parse a path string: absolute iff it starts with `/`; empty and `.`
components are dropped, `..` is kept. -/
def parsePyPath (s : Str) : PyPath :=
  { absolute := s.head? == some '/',
    parts := (splitSlashAux [] s).filter
      (fun comp => !(comp.isEmpty || comp == str ".")) }

/-- Filesystem resolution of `..` components against the parent. -/
def resolveParts (parts : List Str) : List Str :=
  parts.foldl (fun acc part => if part = str ".." then acc.dropLast else acc ++ [part])
    []

/-- The directory entry a record's path reaches, as absolute components:
`output_root / path_str`, with `..` resolved. -/
def materializedParts (root : List Str) (p : Str) : List Str :=
  if (parsePyPath p).absolute then resolveParts (parsePyPath p).parts
  else resolveParts (root ++ (parsePyPath p).parts)

/-- Strict containment below the destination root. -/
def strictlyWithin (root target : List Str) : Bool :=
  root.isPrefixOf target && !(target == root)

/-- The target path of a restore write, when it has one. -/
def opTargetPath : WOp → Option Str
  | .openFile p _ => some p
  | .writeFile p _ => some p
  | .mkdir p => some p
  | .mkdirRoot => none

/-- A record path that cannot escape: relative, non-empty, no `..`. -/
def pathSafe (p : Str) : Bool :=
  !(parsePyPath p).absolute && !(parsePyPath p).parts.isEmpty
    && !((parsePyPath p).parts.contains (str ".."))

/-- Counterexample to claim C6 as stated: the crafted archive whose single
record names "../evil" makes Pass 2 open a file at `output_root/../evil`,
which resolves outside the destination root (shown for root `["r"]`). -/
theorem claim6_traversal_counterexample :
    restoreArchive (str "--- BEGIN FILE: ../evil ---\n") (fun _ => false)
      = ([WOp.mkdirRoot, .openFile (str "../evil") false],
         [.truncated (str "../evil")], none)
    ∧ materializedParts [str "r"] (str "../evil") = [str "evil"]
    ∧ strictlyWithin [str "r"] (materializedParts [str "r"] (str "../evil"))
      = false := by
  refine ⟨by decide, by decide, by decide⟩

theorem writeBufferedContent_opPaths (cp : Str) (cb : Bool) (buf : List Str) :
    ∀ op ∈ (writeBufferedContent cp cb buf).1, opTargetPath op = some cp := by
  unfold writeBufferedContent
  intro op hop
  split at hop
  · simp at hop
  · split at hop
    · split at hop
      · simp at hop
        subst hop
        rfl
      · simp at hop
      · simp at hop
    · simp at hop
      subst hop
      rfl

theorem processLine_end_closed (st : RState) (line : Str) (p : Str) (bin : Bool)
    (h1 : parse_begin_file_line (rstripNewlines line) = (none, false))
    (h2 : parse_empty_dir_line (rstripNewlines line) = none)
    (h3 : parse_end_file_line (rstripNewlines line) = (some p, bin))
    (hcur : st.current = none) :
    processLine st line
      = ([], [.endWithoutOpen (rstripNewlines line)],
         { current := none, buffer := [] }, false) := by
  unfold processLine
  rw [h1, h2, h3, hcur]

theorem processLine_begin_abort (st : RState) (line : Str) (p : Str) (bin : Bool)
    (h : parse_begin_file_line (rstripNewlines line) = (some p, bin))
    (hf : (flushCurrent st).2.2 = true) :
    processLine st line = ((flushCurrent st).1, (flushCurrent st).2.1, st, true) := by
  unfold processLine
  rw [h]
  simp only [hf, if_true]

theorem processLine_empty_dir_abort (st : RState) (line : Str) (p : Str)
    (h1 : parse_begin_file_line (rstripNewlines line) = (none, false))
    (h2 : parse_empty_dir_line (rstripNewlines line) = some p)
    (hf : (flushCurrent st).2.2 = true) :
    processLine st line = ((flushCurrent st).1, (flushCurrent st).2.1, st, true) := by
  unfold processLine
  rw [h1, h2]
  simp only [hf, if_true]

theorem processLine_end_open_abort (cp : Str) (cb : Bool) (buf : List Str) (line : Str)
    (p : Str) (bin : Bool)
    (h1 : parse_begin_file_line (rstripNewlines line) = (none, false))
    (h2 : parse_empty_dir_line (rstripNewlines line) = none)
    (h3 : parse_end_file_line (rstripNewlines line) = (some p, bin))
    (hw : (writeBufferedContent cp cb buf).2.2 = true) :
    processLine { current := some (cp, cb), buffer := buf } line
      = ((writeBufferedContent cp cb buf).1, (writeBufferedContent cp cb buf).2.1,
         { current := some (cp, cb), buffer := buf }, true) := by
  unfold processLine
  rw [h1, h2, h3]
  simp only [hw, if_true]

theorem processLine_opPaths (st : RState) (l : Str) (P : Str → Prop)
    (hline : ∀ p, markerPath l = some p → P p)
    (hst : ∀ p b, st.current = some (p, b) → P p) :
    (∀ op ∈ (processLine st l).1, ∀ q, opTargetPath op = some q → P q)
    ∧ (∀ p b, (processLine st l).2.2.1.current = some (p, b) → P p) := by
  have hflush : ∀ op ∈ (flushCurrent st).1, ∀ q, opTargetPath op = some q → P q := by
    intro op hop q hq
    unfold flushCurrent at hop
    rcases hc : st.current with _ | ⟨cp, cb⟩
    · rw [hc] at hop
      simp at hop
    · rw [hc] at hop
      have := writeBufferedContent_opPaths cp cb st.buffer op hop
      rw [this] at hq
      simp only [Option.some.injEq] at hq
      subst hq
      exact hst cp cb hc
  rcases hb : parse_begin_file_line (rstripNewlines l) with ⟨ob, bb⟩
  rcases ob with _ | p
  · have hb2 : parse_begin_file_line (rstripNewlines l) = (none, false) :=
      parse_begin_none_snd _ (by rw [hb])
    rcases he : parse_empty_dir_line (rstripNewlines l) with _ | p
    · rcases hn : parse_end_file_line (rstripNewlines l) with ⟨oe, be⟩
      rcases oe with _ | p
      · have hn2 : parse_end_file_line (rstripNewlines l) = (none, false) :=
          parse_end_none_snd _ (by rw [hn])
        have hm : isMarkerLine (rstripNewlines l) = false := by
          unfold isMarkerLine
          rw [hb2, he, hn2]
          rfl
        rw [processLine_content st l hm]
        constructor
        · intro op hop
          simp at hop
        · rcases hc : st.current with _ | ⟨cp, cb⟩
          · simp only [hc]
            intro p b hpb
            cases hpb
          · simp only [hc]
            intro p b hpb
            simp only [Option.some.injEq] at hpb
            exact hst p b (by rw [hc, ← hpb])
      · rcases hc : st.current with _ | ⟨cp, cb⟩
        · rw [processLine_end_closed st l p be hb2 he (by rw [hn]) hc]
          constructor
          · intro op hop
            simp at hop
          · intro p b hpb
            cases hpb
        · have hstform : st = { current := some (cp, cb), buffer := st.buffer } := by
            rcases st with ⟨cur, buf⟩
            simp at hc
            rw [hc]
          have hwops := writeBufferedContent_opPaths cp cb st.buffer
          cases hw : (writeBufferedContent cp cb st.buffer).2.2 with
          | true =>
            rw [hstform, processLine_end_open_abort cp cb st.buffer l p be hb2 he
                (by rw [hn]) hw]
            constructor
            · intro op hop q hq
              have := hwops op hop
              rw [this] at hq
              simp only [Option.some.injEq] at hq
              subst hq
              exact hst cp cb hc
            · intro q b hpb
              simp only [Option.some.injEq] at hpb
              exact hst q b (by rw [hc, ← hpb])
          | false =>
            rw [hstform, processLine_end_open cp cb st.buffer l p be hb2 he
                (by rw [hn]) hw]
            constructor
            · intro op hop q hq
              have := hwops op hop
              rw [this] at hq
              simp only [Option.some.injEq] at hq
              subst hq
              exact hst cp cb hc
            · intro p b hpb
              cases hpb
    · cases hf : (flushCurrent st).2.2 with
      | true =>
        rw [processLine_empty_dir_abort st l p hb2 he hf]
        constructor
        · intro op hop q hq
          exact hflush op hop q hq
        · intro q b hpb
          exact hst q b hpb
      | false =>
        rw [processLine_empty_dir st l p hb2 he hf]
        constructor
        · intro op hop q hq
          rw [List.mem_append] at hop
          rcases hop with hop | hop
          · exact hflush op hop q hq
          · simp at hop
            subst hop
            simp only [opTargetPath, Option.some.injEq] at hq
            subst hq
            apply hline
            unfold markerPath
            rw [hb2, he]
        · intro p b hpb
          cases hpb
  · cases hf : (flushCurrent st).2.2 with
    | true =>
      rw [processLine_begin_abort st l p bb (by rw [hb]) hf]
      constructor
      · intro op hop q hq
        exact hflush op hop q hq
      · intro q b hpb
        exact hst q b hpb
    | false =>
      rw [processLine_begin st l p bb (by rw [hb]) hf]
      constructor
      · intro op hop q hq
        rw [List.mem_append] at hop
        rcases hop with hop | hop
        · exact hflush op hop q hq
        · simp at hop
          subst hop
          simp only [opTargetPath, Option.some.injEq] at hq
          subst hq
          apply hline
          unfold markerPath
          rw [hb]
      · intro q b hpb
        simp only [Option.some.injEq] at hpb
        have : q = p := by
          have := congrArg Prod.fst hpb.symm
          exact this
        subst this
        apply hline
        unfold markerPath
        rw [hb]

theorem processLines_opPaths (lines : List Str) :
    ∀ (st : RState) (P : Str → Prop),
      (∀ l ∈ lines, ∀ p, markerPath l = some p → P p) →
      (∀ p b, st.current = some (p, b) → P p) →
      (∀ op ∈ (processLines st lines).1, ∀ q, opTargetPath op = some q → P q)
      ∧ (∀ p b, (processLines st lines).2.2.1.current = some (p, b) → P p) := by
  induction lines with
  | nil =>
    intro st P _ hst
    exact ⟨by intro op hop; simp [processLines] at hop, hst⟩
  | cons l rest ih =>
    intro st P hlines hst
    have hone := processLine_opPaths st l P (hlines l (by simp)) hst
    cases hab : (processLine st l).2.2.2 with
    | true =>
      rw [processLines_cons_abort _ _ _ hab]
      exact ⟨hone.1, hone.2⟩
    | false =>
      have hrest := ih (processLine st l).2.2.1 P
        (fun x hx => hlines x (by simp [hx])) hone.2
      rw [processLines_cons _ _ _ hab]
      constructor
      · intro op hop q hq
        simp only [List.mem_append] at hop
        rcases hop with hop | hop
        · exact hone.1 op hop q hq
        · exact hrest.1 op hop q hq
      · exact hrest.2

theorem processFileContents_opPaths (lines : List Str) (P : Str → Prop)
    (hlines : ∀ l ∈ lines, ∀ p, markerPath l = some p → P p) :
    ∀ op ∈ (processFileContents lines).1, ∀ q, opTargetPath op = some q → P q := by
  have h := processLines_opPaths lines initState P hlines (by intro p b hpb; cases hpb)
  unfold processFileContents
  rcases hres : processLines initState lines with ⟨ops, warns, st, ab⟩
  rw [hres] at h
  cases ab with
  | true => exact h.1
  | false =>
    rcases hc : st.current with _ | ⟨cp, cb⟩
    · simp only [hc]
      exact h.1
    · simp only [hc]
      intro op hop q hq
      have hop2 : op ∈ ops ++ (writeBufferedContent cp cb st.buffer).1 := by
        split at hop
        · exact hop
        · exact hop
      simp only [List.mem_append] at hop2
      rcases hop2 with hop2 | hop2
      · exact h.1 op hop2 q hq
      · have := writeBufferedContent_opPaths cp cb st.buffer op hop2
        rw [this] at hq
        simp only [Option.some.injEq] at hq
        subst hq
        exact h.2 cp cb hc

theorem isPrefixOf_append_self_gen {α : Type} [BEq α] [LawfulBEq α]
    (a x : List α) : a.isPrefixOf (a ++ x) = true := by
  rw [List.isPrefixOf_iff_prefix]
  exact List.prefix_append a x

theorem resolveParts_no_dotdot (parts : List Str) (h : ¬ str ".." ∈ parts) :
    resolveParts parts = parts := by
  unfold resolveParts
  have haux : ∀ (l : List Str) (acc : List Str), ¬ str ".." ∈ l →
      l.foldl (fun acc part =>
        if part = str ".." then acc.dropLast else acc ++ [part]) acc = acc ++ l := by
    intro l
    induction l with
    | nil => intro acc _; simp
    | cons x xs ihx =>
      intro acc hx
      simp only [List.foldl_cons]
      rw [if_neg (by intro hh; exact hx (by simp [hh]))]
      rw [ihx (acc ++ [x]) (by intro hh; exact hx (by simp [hh]))]
      simp
  rw [haux parts [] h]
  simp

/-- Claim C6 (amended): the restorer performs no path sanitisation, so
containment holds only conditionally: when every marker path of the
stream is relative, non-empty, and free of `..` components (and the
resolved destination root itself has no `..`), every path a Pass-2 write
materialises lies strictly within the destination root. A crafted archive
violating the condition escapes (see the counterexample). -/
theorem claim6_traversal_amended (lines : List Str) (root : List Str)
    (hroot : ¬ str ".." ∈ root)
    (h : ∀ l ∈ lines, ∀ p, markerPath l = some p → pathSafe p = true) :
    ∀ op ∈ (processFileContents lines).1, ∀ q, opTargetPath op = some q →
      strictlyWithin root (materializedParts root q) = true := by
  intro op hop q hq
  have hsafe : pathSafe q = true :=
    processFileContents_opPaths lines (fun p => pathSafe p = true) h op hop q hq
  unfold pathSafe at hsafe
  simp only [Bool.and_eq_true, Bool.not_eq_true'] at hsafe
  obtain ⟨⟨habs, hne⟩, hdd⟩ := hsafe
  unfold materializedParts
  rw [habs]
  simp only [Bool.false_eq_true, if_false]
  have hnodd : ¬ str ".." ∈ root ++ (parsePyPath q).parts := by
    intro hmem
    rw [List.mem_append] at hmem
    rcases hmem with hmem | hmem
    · exact hroot hmem
    · have h2 : ((parsePyPath q).parts.contains (str "..")) = true :=
        List.elem_iff.mpr hmem
      rw [h2] at hdd
      cases hdd
  rw [resolveParts_no_dotdot _ hnodd]
  unfold strictlyWithin
  simp only [Bool.and_eq_true]
  constructor
  · exact isPrefixOf_append_self_gen root (parsePyPath q).parts
  · simp only [Bool.not_eq_true']
    have hplen : (parsePyPath q).parts ≠ [] := by
      intro hh
      rw [hh] at hne
      simp at hne
    rw [beq_eq_false_iff_ne]
    intro hcontra
    have hlen := congrArg List.length hcontra
    rw [List.length_append] at hlen
    have hzero : (parsePyPath q).parts.length = 0 := by omega
    exact hplen (List.length_eq_zero.mp hzero)

/-- Witness for claim C6: a safe record path lands strictly inside the
destination root. -/
theorem claim6_traversal_amended_witness :
    strictlyWithin [str "r"] (materializedParts [str "r"] (str "a/b.txt")) = true := by
  have h := claim6_traversal_amended [str "--- BEGIN FILE: a/b.txt ---" ++ ['\n']]
    [str "r"] (by decide) (by decide)
  exact h (.openFile (str "a/b.txt") false) (by decide) (str "a/b.txt") rfl

/-! ## Claims C8, C9, C10: truncation, bad base64, extra binary lines -/
theorem processFileContents_frame_append (frame : List Str) (rest : List Str)
    (ops : List WOp) (warns : List RWarn)
    (h : processLines initState frame = (ops, warns, initState, false)) :
    processFileContents (frame ++ rest)
      = (ops ++ (processFileContents rest).1, warns ++ (processFileContents rest).2.1,
         (processFileContents rest).2.2) := by
  unfold processFileContents
  rw [processLines_append_of _ _ _ _ _ _ h]
  rcases hres : processLines initState rest with ⟨o2, w2, st2, ab2⟩
  cases ab2 with
  | true => simp
  | false =>
    rcases hc : st2.current with _ | ⟨cp, cb⟩
    · simp [hc]
    · simp only [hc]
      cases hw : (writeBufferedContent cp cb st2.buffer).2.2 with
      | true => simp [hw, List.append_assoc]
      | false => simp [hw, List.append_assoc]

/-- Claim C8: an archive that ends while a file is still open (its END
marker missing) still materialises the buffered content of that file at
end of stream, with a truncation warning; the well-formed frames before it
restore normally. -/
theorem claim8_truncated_flush (items : List (Str × FSTree)) (p : Str)
    (content : List Nat) (hitems : ∀ it ∈ items, itemOk it = true)
    (hpath : pathOk p = true) (hfile : textFileOk content = true) :
    processFileContents
        ((items.map (fun it => splitLines (renderItem it))).flatten
          ++ (((BEGIN_FILE_PRE ++ p ++ BEGIN_FILE_SUFFIX) ++ ['\n'])
            :: splitLines (writeTextContent content)))
      = (expectedWrites items ++ [.openFile p false, .writeFile p content],
         [.truncated p], false) := by
  have hp3 : (BINARY_MARKER.isSuffixOf p) = false := by
    unfold pathOk at hpath
    simp only [Bool.and_eq_true] at hpath
    simpa using hpath.2
  have hvalid : validUtf8 content = true := by
    unfold textFileOk at hfile
    simp only [Bool.and_eq_true] at hfile
    exact hfile.1.1.1.2
  have hsingle : endsNL (utf8Decode content) = true →
      endsNL (utf8Decode content).dropLast = true := by
    unfold textFileOk at hfile
    simp only [Bool.and_eq_true] at hfile
    have hx := hfile.1.2
    unfold noSingleTrailingNL at hx
    intro hy
    rcases Bool.or_eq_true_iff.mp hx with hcase | hcase
    · rw [hy] at hcase
      simp at hcase
    · exact hcase
  have hlines : ∀ l ∈ splitLines (writeTextContent content),
      isMarkerLine (rstripNewlines l) = false := by
    unfold textFileOk at hfile
    simp only [Bool.and_eq_true] at hfile
    have hx := hfile.2
    unfold contentLinesOk at hx
    rw [List.all_eq_true] at hx
    intro l hl
    simpa using hx l hl
  have hbeginparse : parse_begin_file_line
      (rstripNewlines ((BEGIN_FILE_PRE ++ p ++ BEGIN_FILE_SUFFIX) ++ ['\n']))
        = (some p, false) := by
    rw [rstrip_line _ (endsNL_marker_body _)]
    exact parse_begin_marker_text p hp3
  have hpl1 : processLine initState ((BEGIN_FILE_PRE ++ p ++ BEGIN_FILE_SUFFIX) ++ ['\n'])
      = ([.openFile p false], [],
         { current := some (p, false), buffer := [] }, false) := by
    rw [processLine_begin initState _ _ _ hbeginparse rfl]
    rfl
  have htail : processLines initState
        (((BEGIN_FILE_PRE ++ p ++ BEGIN_FILE_SUFFIX) ++ ['\n'])
          :: splitLines (writeTextContent content))
      = ([.openFile p false], [],
         (⟨some (p, false), splitLines (writeTextContent content)⟩ : RState), false) := by
    rw [processLines_cons _ _ _ (by rw [hpl1]), hpl1]
    simp only []
    rw [processLines_buffering _ hlines p false []]
    simp
  unfold processFileContents
  rw [processLines_append_of _ _ _ _ _ _ (process_items items hitems), htail]
  simp only []
  rw [flatten_buffer_text p content hvalid hsingle]
  simp

/-- Witness for claim C8 at a one-directory prefix and the text "hi". -/
theorem claim8_truncated_flush_witness :
    processFileContents
        (([(str "d", FSTree.dir [])].map (fun it => splitLines (renderItem it))).flatten
          ++ (((BEGIN_FILE_PRE ++ str "x" ++ BEGIN_FILE_SUFFIX) ++ ['\n'])
            :: splitLines (writeTextContent [104, 105])))
      = (expectedWrites [(str "d", FSTree.dir [])]
          ++ [.openFile (str "x") false, .writeFile (str "x") [104, 105]],
         [.truncated (str "x")], false) :=
  claim8_truncated_flush [(str "d", FSTree.dir [])] (str "x") [104, 105]
    (by decide) (by decide) (by decide)

theorem writeBufferedContent_bin_head (p : Str) (l : Str) (ls : List Str) :
    writeBufferedContent p true (l :: ls) = writeBufferedContent p true [l] := by
  unfold writeBufferedContent
  rfl

/-- The binary frame around arbitrary non-marker content lines whose flush
does not raise: opens the file, and on END flushes only the head line of
the buffer. -/
theorem bin_frame_processing (p : Str) (l : Str) (ls : List Str)
    (hl : ∀ x ∈ l :: ls, isMarkerLine (rstripNewlines x) = false)
    (hw : (writeBufferedContent p true (l :: ls)).2.2 = false) :
    processLines initState
        (((BEGIN_FILE_PRE ++ (p ++ BINARY_MARKER) ++ BEGIN_FILE_SUFFIX) ++ ['\n'])
          :: ((l :: ls)
          ++ [((END_FILE_PRE ++ (p ++ BINARY_MARKER) ++ END_FILE_SUFFIX) ++ ['\n'])]))
      = (WOp.openFile p true :: (writeBufferedContent p true (l :: ls)).1,
         (writeBufferedContent p true (l :: ls)).2.1, initState, false) := by
  have hbeginparse : parse_begin_file_line
      (rstripNewlines ((BEGIN_FILE_PRE ++ (p ++ BINARY_MARKER) ++ BEGIN_FILE_SUFFIX)
        ++ ['\n'])) = (some p, true) := by
    rw [rstrip_line _ (endsNL_marker_body _)]
    exact parse_begin_marker_bin p
  have hpl1 : processLine initState
        ((BEGIN_FILE_PRE ++ (p ++ BINARY_MARKER) ++ BEGIN_FILE_SUFFIX) ++ ['\n'])
      = ([.openFile p true], [],
         { current := some (p, true), buffer := [] }, false) := by
    rw [processLine_begin initState _ _ _ hbeginparse rfl]
    rfl
  have hendrstrip : rstripNewlines ((END_FILE_PRE ++ (p ++ BINARY_MARKER)
      ++ END_FILE_SUFFIX) ++ ['\n'])
      = END_FILE_PRE ++ ((p ++ BINARY_MARKER) ++ END_FILE_SUFFIX) := by
    rw [rstrip_line _ (endsNL_append_marker _ _ (by decide) (by decide))]
    simp
  have hbegin2 : parse_begin_file_line
      (rstripNewlines ((END_FILE_PRE ++ (p ++ BINARY_MARKER) ++ END_FILE_SUFFIX)
        ++ ['\n'])) = (none, false) := by
    rw [hendrstrip]
    exact parse_begin_of_end_line _
  have hempty2 : parse_empty_dir_line
      (rstripNewlines ((END_FILE_PRE ++ (p ++ BINARY_MARKER) ++ END_FILE_SUFFIX)
        ++ ['\n'])) = none := by
    rw [hendrstrip]
    exact parse_empty_dir_of_end_line _
  have hend2 : parse_end_file_line
      (rstripNewlines ((END_FILE_PRE ++ (p ++ BINARY_MARKER) ++ END_FILE_SUFFIX)
        ++ ['\n'])) = (some p, true) := by
    rw [hendrstrip, ← List.append_assoc]
    exact parse_end_marker_bin p
  have hpl3 : processLine (⟨some (p, true), l :: ls⟩ : RState)
        ((END_FILE_PRE ++ (p ++ BINARY_MARKER) ++ END_FILE_SUFFIX) ++ ['\n'])
      = ((writeBufferedContent p true (l :: ls)).1,
         (writeBufferedContent p true (l :: ls)).2.1,
         { current := none, buffer := [] }, false) := by
    rw [processLine_end_open _ _ _ _ _ _ hbegin2 hempty2 hend2 hw]
    simp
  rw [processLines_cons _ _ _ (by rw [hpl1]), hpl1]
  simp only []
  rw [processLines_append_of _ _ _ _ _ _ (processLines_buffering _ hl p true [])]
  simp only [List.nil_append, List.append_nil]
  rw [processLines_cons _ _ _ (by rw [hpl3]), hpl3, processLines_nil]
  simp [initState]

/-- Claim C9 (amended): a binary record whose single content line is ASCII
but not valid base64 (`base64.b64decode` raises `binascii.Error`, which
the restorer catches) still creates (opens) the target file but writes
nothing for it, emits a decode-failure warning, and the rest of the
archive is processed exactly as it would be on its own. (A non-ASCII
content line instead raises an uncaught error that aborts the whole
restore: see the counterexample.) -/
theorem claim9_bad_base64 (p : Str) (badline : Str) (rest : List Str)
    (hbad1 : isMarkerLine (rstripNewlines badline) = false)
    (hbad2 : b64decode (rstripNewlines badline) = .binErr) :
    processFileContents
        ((((BEGIN_FILE_PRE ++ (p ++ BINARY_MARKER) ++ BEGIN_FILE_SUFFIX) ++ ['\n'])
          :: ([badline]
          ++ [((END_FILE_PRE ++ (p ++ BINARY_MARKER) ++ END_FILE_SUFFIX) ++ ['\n'])]))
          ++ rest)
      = ([WOp.openFile p true] ++ (processFileContents rest).1,
         [RWarn.decodeFailure] ++ (processFileContents rest).2.1,
         (processFileContents rest).2.2) := by
  have hwb : writeBufferedContent p true [badline] = ([], [.decodeFailure], false) := by
    unfold writeBufferedContent
    rw [if_neg (by simp)]
    simp only [if_true, List.headD_cons]
    rw [hbad2]
  have hframe := bin_frame_processing p badline []
    (by intro x hx; simp only [List.mem_singleton] at hx; subst hx; exact hbad1)
    (by rw [hwb])
  rw [hwb] at hframe
  exact processFileContents_frame_append _ rest _ _ hframe

/-- Witness for claim C9: the line "ab!" filters to two base64 characters,
an invalid quantum, so the decode raises `binascii.Error`; a following
empty-dir record still restores. -/
theorem claim9_bad_base64_witness :
    processFileContents
        ((((BEGIN_FILE_PRE ++ (str "b" ++ BINARY_MARKER) ++ BEGIN_FILE_SUFFIX) ++ ['\n'])
          :: ([str "ab!" ++ ['\n']]
          ++ [((END_FILE_PRE ++ (str "b" ++ BINARY_MARKER) ++ END_FILE_SUFFIX) ++ ['\n'])]))
          ++ [(EMPTY_DIR_PRE ++ str "d" ++ EMPTY_DIR_SUFFIX) ++ ['\n']])
      = ([WOp.openFile (str "b") true]
          ++ (processFileContents
              [(EMPTY_DIR_PRE ++ str "d" ++ EMPTY_DIR_SUFFIX) ++ ['\n']]).1,
         [RWarn.decodeFailure]
          ++ (processFileContents
              [(EMPTY_DIR_PRE ++ str "d" ++ EMPTY_DIR_SUFFIX) ++ ['\n']]).2.1,
         (processFileContents
             [(EMPTY_DIR_PRE ++ str "d" ++ EMPTY_DIR_SUFFIX) ++ ['\n']]).2.2) :=
  claim9_bad_base64 (str "b") (str "ab!" ++ ['\n'])
    [(EMPTY_DIR_PRE ++ str "d" ++ EMPTY_DIR_SUFFIX) ++ ['\n']] (by decide) (by decide)

/-- Counterexample to claim C9 as stated: a binary record whose content
line "éA" is invalid base64 but non-ASCII; `base64.b64decode` raises a
`ValueError` that the restorer's `except binascii.Error` does not catch,
so the restore run aborts with no decode warning, the empty-directory
record after the frame is never materialised, and the archive-level run
raises (`IOError`) instead of continuing. -/
theorem claim9_counterexample :
    (processFileContents
        ((((BEGIN_FILE_PRE ++ (str "b" ++ BINARY_MARKER) ++ BEGIN_FILE_SUFFIX) ++ ['\n'])
          :: ([str "éA" ++ ['\n']]
          ++ [((END_FILE_PRE ++ (str "b" ++ BINARY_MARKER) ++ END_FILE_SUFFIX) ++ ['\n'])]))
          ++ [(EMPTY_DIR_PRE ++ str "d" ++ EMPTY_DIR_SUFFIX) ++ ['\n']])).2.2 = true
    ∧ RWarn.decodeFailure ∉ (processFileContents
        ((((BEGIN_FILE_PRE ++ (str "b" ++ BINARY_MARKER) ++ BEGIN_FILE_SUFFIX) ++ ['\n'])
          :: ([str "éA" ++ ['\n']]
          ++ [((END_FILE_PRE ++ (str "b" ++ BINARY_MARKER) ++ END_FILE_SUFFIX) ++ ['\n'])]))
          ++ [(EMPTY_DIR_PRE ++ str "d" ++ EMPTY_DIR_SUFFIX) ++ ['\n']])).2.1
    ∧ WOp.mkdir (str "d") ∉ (processFileContents
        ((((BEGIN_FILE_PRE ++ (str "b" ++ BINARY_MARKER) ++ BEGIN_FILE_SUFFIX) ++ ['\n'])
          :: ([str "éA" ++ ['\n']]
          ++ [((END_FILE_PRE ++ (str "b" ++ BINARY_MARKER) ++ END_FILE_SUFFIX) ++ ['\n'])]))
          ++ [(EMPTY_DIR_PRE ++ str "d" ++ EMPTY_DIR_SUFFIX) ++ ['\n']])).1
    ∧ (restoreArchive
        (str "--- BEGIN FILE: b (BINARY - BASE64 ENCODED) ---\néA\n--- END FILE: b (BINARY - BASE64 ENCODED) ---\n--- EMPTY DIR: d ---\n")
        (fun _ => false)).2.2 = some RError.ioError := by
  refine ⟨by decide, by decide, by decide, by decide⟩

/-- Claim C10: for a binary record with several content lines between
BEGIN and END, the flush decodes only the first buffered line (trailing
newlines stripped); the remaining lines are discarded with no write and
no warning, so the result does not depend on them at all. -/
theorem claim10_binary_first_line_only (p : Str) (l : Str) (ls : List Str)
    (bytes : List Nat)
    (hl : ∀ x ∈ l :: ls, isMarkerLine (rstripNewlines x) = false)
    (hdec : b64decode (rstripNewlines l) = .ok bytes) :
    writeBufferedContent p true (l :: ls) = writeBufferedContent p true [l]
    ∧ processFileContents
        (((BEGIN_FILE_PRE ++ (p ++ BINARY_MARKER) ++ BEGIN_FILE_SUFFIX) ++ ['\n'])
          :: ((l :: ls)
          ++ [((END_FILE_PRE ++ (p ++ BINARY_MARKER) ++ END_FILE_SUFFIX) ++ ['\n'])]))
        = ([WOp.openFile p true, WOp.writeFile p bytes], [], false) := by
  refine ⟨writeBufferedContent_bin_head p l ls, ?_⟩
  have hwb : writeBufferedContent p true (l :: ls)
      = ([.writeFile p bytes], [], false) := by
    rw [writeBufferedContent_bin_head]
    unfold writeBufferedContent
    rw [if_neg (by simp)]
    simp only [if_true, List.headD_cons]
    rw [hdec]
  have hframe := bin_frame_processing p l ls hl (by rw [hwb])
  rw [hwb] at hframe
  unfold processFileContents
  rw [hframe]
  rfl

/-- Witness for claim C10: two buffered lines, only the first ("AP8K",
decoding to the bytes 0x00 0xFF 0x0A) is written; the second is dropped. -/
theorem claim10_binary_first_line_only_witness :
    writeBufferedContent (str "b") true [str "AP8K" ++ ['\n'], str "ZZZZ" ++ ['\n']]
        = writeBufferedContent (str "b") true [str "AP8K" ++ ['\n']]
    ∧ processFileContents
        (((BEGIN_FILE_PRE ++ (str "b" ++ BINARY_MARKER) ++ BEGIN_FILE_SUFFIX) ++ ['\n'])
          :: (((str "AP8K" ++ ['\n']) :: [str "ZZZZ" ++ ['\n']])
          ++ [((END_FILE_PRE ++ (str "b" ++ BINARY_MARKER) ++ END_FILE_SUFFIX) ++ ['\n'])]))
        = ([WOp.openFile (str "b") true, WOp.writeFile (str "b") [0, 255, 10]], [],
           false) :=
  claim10_binary_first_line_only (str "b") (str "AP8K" ++ ['\n']) [str "ZZZZ" ++ ['\n']]
    [0, 255, 10] (by decide) (by decide)

end Scrip
